import Mathlib

/-!
Shallow embedding of the radon cross-shard join planner
(`src/planner/join_node.go`, `src/planner/orderby_plan.go`,
`src/planner/plan_node.go`) together with theorems settling the frozen
claims about it.

Modelling conventions:
* `sqlparser.ColName` values are mutable heap cells shared between a
  `filterTuple` and the expression it appears in; we model them as
  indices into an explicit column store `ColStore`, so that the in-place
  column rewriting performed by `JoinNode.buildQuery` is visible to every
  expression holding the same cell.
* Go `(value, error)` returns become `α × Option PlanErr`; an error made
  of a fixed message is one constructor of `PlanErr`, and `PlanErr.render`
  yields the exact Go message string.
* The repository files for `MergeNode` and the expression helpers
  (`checkTbInNode`, `checkIsWithNull`, `checkInTuple`, `nameMatch`,
  `getTbInExpr`, `mergeRoutes`) are not part of the provided sources;
  those definitions are modelled from the spec and explicitly marked.
-/

namespace Radon

/-- Literal values carried by filters (`filterTuple.val`). -/
abbrev Val := Int

/-- The column store: cell `c` holds the current `(qualifier table, name)`
of one `sqlparser.ColName` heap object. -/
abbrev ColStore := List (String × String)

/-- Qualifier table of the column cell `c` (empty when unqualified). -/
def colTable (σ : ColStore) (c : Nat) : String := (σ.getD c ("", "")).1

/-- Column name of the column cell `c`. -/
def colField (σ : ColStore) (c : Nat) : String := (σ.getD c ("", "")).2

/-- In-place rewrite of the column cell `c`, as done by `buildQuery` with
`sqlparser.NewTableIdent` / `sqlparser.NewColIdent`. -/
def setCol (σ : ColStore) (c : Nat) (t f : String) : ColStore := σ.set c (t, f)

/-- SQL expressions (`sqlparser.Expr`), restricted to the shapes the
planner inspects.  `col` is a reference to a mutable `ColName` cell;
`ncol` is a column whose name is already fixed (it appears in rendered
output only). -/
inductive Expr where
  | col (ref : Nat)
  | ncol (table field : String)
  | lit (v : Int)
  | cmp (op : String) (l r : Expr)
  | isNull (e : Expr)
  | conj (l r : Expr)
deriving DecidableEq

/-- Resolve every mutable column cell of an expression against the current
store; this is the point where the emitted SQL text of a Merge query is
fixed. -/
def render (σ : ColStore) : Expr → Expr
  | .col c => .ncol (colTable σ c) (colField σ c)
  | .ncol t f => .ncol t f
  | .lit v => .lit v
  | .cmp op l r => .cmp op (render σ l) (render σ r)
  | .isNull e => .isNull (render σ e)
  | .conj l r => .conj (render σ l) (render σ r)

/-- Single-quote character, used inside the error message strings. -/
def sq : String := String.mk [Char.ofNat 39]

/-- SQL text of an expression (models `sqlparser.TrackedBuffer` formatting,
which lives in the external parser library; the claims never depend on the
exact text, only on it being embedded in error messages). -/
def fmtExpr (σ : ColStore) : Expr → String
  | .col c => colTable σ c ++ "." ++ colField σ c
  | .ncol t f => t ++ "." ++ f
  | .lit v => toString v
  | .cmp op l r => fmtExpr σ l ++ " " ++ op ++ " " ++ fmtExpr σ r
  | .isNull e => fmtExpr σ e ++ " is null"
  | .conj l r => fmtExpr σ l ++ " and " ++ fmtExpr σ r

/-- The planner error surface.  Each constructor is one `errors.Errorf`
site of the planner (or, for `routerErr`, an error produced by the Route
Oracle and passed through). -/
inductive PlanErr where
  | aggregates
  | clauseInCrossShardJoin (sql : String)
  | onClauseInCrossShardJoin (sql : String)
  | exprInCrossShardJoin (sql : String)
  | orderbyShouldInSelect (field : String)
  | unknowTable (table field : String)
  | havingsInCrossShardJoin (sql : String)
  | orderbyUnsupported (sql : String)
  | routerErr (msg : String)
deriving DecidableEq

/-- The exact Go message string of each planner error (every planner-own
message carries the stable prefix; a Route-Oracle error is passed through
unmodified). -/
def PlanErr.render : PlanErr → String
  | .aggregates => "unsupported: " ++ "cross-shard.query.with.aggregates"
  | .clauseInCrossShardJoin s => "unsupported: " ++ ("clause." ++ sq ++ s ++ sq ++ ".in.cross-shard.join")
  | .onClauseInCrossShardJoin s => "unsupported: " ++ ("on.clause." ++ sq ++ s ++ sq ++ ".in.cross-shard.join")
  | .exprInCrossShardJoin s => "unsupported: " ++ ("expr." ++ sq ++ s ++ sq ++ ".in.cross-shard.join")
  | .orderbyShouldInSelect f => "unsupported: " ++ ("orderby[" ++ f ++ "].should.in.select.list")
  | .unknowTable t f => "unsupported: " ++ ("unknow.table.in.order.by.field[" ++ t ++ "." ++ f ++ "]")
  | .havingsInCrossShardJoin s => "unsupported: " ++ ("havings." ++ sq ++ s ++ sq ++ ".in.cross-shard.join")
  | .orderbyUnsupported s => "unsupported: " ++ ("orderby:" ++ s)
  | .routerErr m => m

/-- The six error reasons enumerated by the spec sentence behind claim C6. -/
def specErrorEnum : PlanErr → Bool
  | .aggregates => true
  | .clauseInCrossShardJoin _ => true
  | .onClauseInCrossShardJoin _ => true
  | .exprInCrossShardJoin _ => true
  | .orderbyShouldInSelect _ => true
  | .unknowTable _ _ => true
  | _ => false

/-- `TableInfo` of `src/planner`: per-table metadata.  The `parent`
back-pointer of the Go struct is represented by the position of the owning
`MergeNode` in the plan tree (every table is owned by exactly one Merge). -/
structure TableInfo where
  database : String
  tableName : String
  shardKey : String
deriving DecidableEq

/-- `selectTuple`: a projected expression.  The Go field `expr` holds an
`AliasedExpr`; its alias is the `field` component here. -/
structure selectTuple where
  expr : Expr
  field : String
  referTables : List String
deriving DecidableEq

/-- `filterTuple`: a WHERE/ON predicate; `col`/`val` are set when it is a
column-vs-literal predicate (`col` is a `ColName` cell reference). -/
structure filterTuple where
  expr : Expr
  referTables : List String
  col : Option Nat
  val : Option Val
deriving DecidableEq

/-- `joinTuple`: an equality `left.col = right.col` across the two sides;
`left` belongs to the node's left subtree, `right` to the right subtree
(established by `checkJoinOn` at construction). -/
structure joinTuple where
  expr : Expr
  referTables : List String
  left : Nat
  right : Nat
deriving DecidableEq

/-- `nullExpr`: an IS NULL style predicate on the right side of a left
join, kept for post-join evaluation. -/
structure nullExpr where
  expr : Expr
  referTables : List String
deriving DecidableEq

/-- `JoinKey`: column info of an on-condition key (`Index` is `int` in Go:
it is `-1` until the key is pushed into the child projection). -/
structure JoinKey where
  Field : String
  Table : String
  Index : Int
deriving DecidableEq

/-- `Comparison`: a residual cross-side comparison. -/
structure Comparison where
  Left : Int
  Right : Int
  Operator : String
  Exchange : Bool
deriving DecidableEq

/-- `JoinStrategy`. -/
inductive JoinStrategy where
  | Cartesian
  | SortMerge
deriving DecidableEq

/-- Tags of the child plans a JoinNode composes (`PlanTree` entries). -/
inductive ChildPlan where
  | aggregate
  | orderby
  | limit
deriving DecidableEq

/-- Association-list lookup in a referred-tables map. -/
def lookupTI (m : List (String × TableInfo)) (tb : String) : Option TableInfo :=
  (m.find? (fun p => p.1 == tb)).map (·.2)

/-- Dereference a referred-tables map entry (the Go code indexes the map
directly; a missing entry would be a nil dereference there). -/
def getTI (m : List (String × TableInfo)) (tb : String) : TableInfo :=
  (lookupTI m tb).getD ⟨"", "", ""⟩

/-- Modelled from the spec: `checkTbInNode` (not in the provided sources)
decides whether a node's referred-tables set covers the given tables. -/
def checkTbInNode (tbs : List String) (m : List (String × TableInfo)) : Bool :=
  tbs.all (fun tb => (lookupTI m tb).isSome)

/-- Modelled from the spec: `nameMatch` (not in the provided sources)
checks that a column is the given table's shard key column. -/
def nameMatch (σ : ColStore) (c : Nat) (table shardKey : String) : Bool :=
  colField σ c == shardKey && (colTable σ c == "" || colTable σ c == table)

/-- Modelled from the spec: `checkIsWithNull` (not in the provided
sources) recognizes an IS NULL style test whose tables all belong to the
right child; the spec leaves its exact predicate shape open beyond the
IS NULL case, so only that case is modelled. -/
def checkIsWithNull (f : filterTuple) (rightTbs : List (String × TableInfo)) : Option nullExpr :=
  match f.expr with
  | .isNull _ =>
    if checkTbInNode f.referTables rightTbs then some ⟨f.expr, f.referTables⟩ else none
  | _ => none

/-- Modelled from the spec: `getTbInExpr` (not in the provided sources)
collects the tables referenced by an expression. -/
def getTbInExpr (σ : ColStore) : Expr → List String
  | .col c => [colTable σ c]
  | .ncol t _ => [t]
  | .lit _ => []
  | .cmp _ l r => (getTbInExpr σ l ++ getTbInExpr σ r).dedup
  | .isNull e => getTbInExpr σ e
  | .conj l r => (getTbInExpr σ l ++ getTbInExpr σ r).dedup

/-- The Route Oracle `router.Router.GetIndex`:
`(database, table, literal) → (shardIndex, err)`.  The pair mirrors the Go
multi-value return: the index value is produced even when the error is
set. -/
abbrev Router := String → String → Val → Int × Option String

/-- Modelled from the spec: the `MergeNode` state, per §4.2 of the spec
(the merge node source file is not among the provided sources).  `filters`
is the accumulated WHERE filter set, `orderBy` the appended ascending
ORDER BY columns, `having` the HAVING predicates, `fields` the projection
list; `index`, `backend`, `shardCount`, `routeLen` are the routing state;
`built` is the rendered WHERE content of the emitted query, fixed by
`buildQuery`. -/
structure MergeData where
  referredTables : List (String × TableInfo)
  fields : List selectTuple
  filters : List Expr
  orderBy : List Nat
  having : List Expr
  index : Int
  backend : String
  shardCount : Nat
  routeLen : Nat
  hasParen : Bool
  built : List Expr
deriving DecidableEq

/-- Modelled from the spec: `MergeNode.setWhereFilter` accumulates a WHERE
filter. -/
def MergeData.setWhereFilter (m : MergeData) (e : Expr) : MergeData :=
  { m with filters := m.filters ++ [e] }

/-- Modelled from the spec: `MergeNode.setNoTableFilter` accumulates
constant filters. -/
def MergeData.setNoTableFilter (m : MergeData) (es : List Expr) : MergeData :=
  { m with filters := m.filters ++ es }

/-- Modelled from the spec: `MergeNode.pushSelectExpr` appends a select
expression and returns its index. -/
def MergeData.pushSelectExpr (m : MergeData) (t : selectTuple) : Nat × MergeData :=
  (m.fields.length, { m with fields := m.fields ++ [t] })

/-- Modelled from the spec: `sel.AddHaving` on a Merge node. -/
def MergeData.addHaving (m : MergeData) (e : Expr) : MergeData :=
  { m with having := m.having ++ [e] }

/-- Modelled from the spec: `MergeNode.buildQuery` renders the emitted
query; we record the rendered WHERE filter set, with every shared column
cell resolved against the store at build time. -/
def MergeData.buildQuery (σ : ColStore) (m : MergeData) : MergeData :=
  { m with built := m.filters.map (render σ) }

/-- `otherJoin`: the partitioned extra ON-clause predicates of a left
join. -/
structure otherJoin where
  noTables : List Expr
  others : List Expr
  left : List selectTuple
  right : List filterTuple
deriving DecidableEq

/-- The scalar state of a `JoinNode` (children are carried by the
`PlanNode.join` constructor).  `joinExpr` only records presence of the
original `JoinTableExpr` (`none` models a comma join). -/
structure JoinData where
  referredTables : List (String × TableInfo)
  joinExpr : Option Unit
  hasParen : Bool
  Strategy : JoinStrategy
  Cols : List Int
  fields : List selectTuple
  joinOn : List joinTuple
  LeftKeys : List JoinKey
  RightKeys : List JoinKey
  CmpFilter : List Comparison
  LeftUnique : Bool
  RightUnique : Bool
  tableFilter : List filterTuple
  otherFilter : List Expr
  noTableFilter : List Expr
  otherJoinOn : Option otherJoin
  rightNull : List nullExpr
  IsLeftJoin : Bool
  HasRightFilter : Bool
  LeftTmpCols : List Int
  RightTmpCols : List Int
  keyFilters : List (Nat × List filterTuple)
  children : List ChildPlan
deriving DecidableEq

/-- The plan-node tree (`PlanNode` interface): a Merge leaf or a Join
internal node with its two children. -/
inductive PlanNode where
  | merge (m : MergeData)
  | join (d : JoinData) (l r : PlanNode)
deriving DecidableEq

/-- `getReferredTables`. -/
def referredTablesOf : PlanNode → List (String × TableInfo)
  | .merge m => m.referredTables
  | .join d _ _ => d.referredTables

/-- `getFields`. -/
def fieldsOf : PlanNode → List selectTuple
  | .merge m => m.fields
  | .join d _ _ => d.fields

/-- Size of a plan tree; the tree-rewriting passes preserve it, which also
serves as the termination measure of `calcRoute` and `buildQuery`. -/
def psize : PlanNode → Nat
  | .merge _ => 1
  | .join _ l r => psize l + psize r + 1

/-- Whether the node's subtree owns the given table. -/
def ownsTable (t : PlanNode) (tb : String) : Bool :=
  (lookupTI (referredTablesOf t) tb).isSome

/-- The Merge node owning table `tb` (the target of a `TableInfo.parent`
dereference). -/
def mergeOf : PlanNode → String → Option MergeData
  | .merge m, tb => if (lookupTI m.referredTables tb).isSome then some m else none
  | .join _ l r, tb => if ownsTable l tb then mergeOf l tb else mergeOf r tb

/-- `tbInfo.parent.index` read. -/
def mergeIndexOf (t : PlanNode) (tb : String) : Option Int :=
  (mergeOf t tb).map (·.index)

/-- Apply an in-place mutation of `tbInfo.parent` (the Merge owning table
`tb`) inside the tree. -/
def updateMergeOf (tb : String) (f : MergeData → MergeData) : PlanNode → PlanNode
  | .merge m => if (lookupTI m.referredTables tb).isSome then .merge (f m) else .merge m
  | .join d l r =>
    if ownsTable l tb then .join d (updateMergeOf tb f l) r
    else .join d l (updateMergeOf tb f r)

/-- `setNoTableFilter` of the `PlanNode` interface. -/
def setNoTableFilterPN (t : PlanNode) (es : List Expr) : PlanNode :=
  match t with
  | .merge m => .merge (m.setNoTableFilter es)
  | .join d l r => .join { d with noTableFilter := d.noTableFilter ++ es } l r

/-- Attach an expression as a WHERE filter on the lowest common ancestor
of the owning Merges of `tbs` (the combination of the `findLCA` walk of
`plan_node.go` with `setWhereFilter` on the found node: the LCA is the
lowest node whose referred tables cover `tbs`; `setWhereFilter` on a Join
appends to `otherFilter`, on a Merge to its WHERE filter set). -/
def attachLCA (e : Expr) (tbs : List String) : PlanNode → PlanNode
  | .merge m => .merge (m.setWhereFilter e)
  | .join d l r =>
    if checkTbInNode tbs (referredTablesOf l) then .join d (attachLCA e tbs l) r
    else if checkTbInNode tbs (referredTablesOf r) then .join d l (attachLCA e tbs r)
    else .join { d with otherFilter := d.otherFilter ++ [e] } l r

theorem psize_updateMergeOf (tb : String) (f : MergeData → MergeData) :
    ∀ t, psize (updateMergeOf tb f t) = psize t := by
  intro t
  induction t with
  | merge m => simp [updateMergeOf, psize]; split <;> simp [psize]
  | join d l r ihl ihr =>
    simp only [updateMergeOf]
    split <;> simp [psize, ihl, ihr]

theorem psize_setNoTableFilterPN (t : PlanNode) (es : List Expr) :
    psize (setNoTableFilterPN t es) = psize t := by
  cases t <;> simp [setNoTableFilterPN, psize]

/-- Mutate `tbInfo.parent` when the owning Merge lives in one of the two
children (the Go code reaches it through the `parent` pointer). -/
def updateLR (tb : String) (f : MergeData → MergeData) (l r : PlanNode) : PlanNode × PlanNode :=
  if ownsTable l tb then (updateMergeOf tb f l, r) else (l, updateMergeOf tb f r)

/-- Read `tbInfo.parent.index` for a table owned by one of the two
children (`0` for a table no Merge owns, where Go would nil-panic; `0`
never compares equal to the unrouted marker `-1`). -/
def parentIndexLR (l r : PlanNode) (tb : String) : Int :=
  ((if ownsTable l tb then mergeOf l tb else mergeOf r tb).map (·.index)).getD 0

/-- The single-table / multi-table body of one `JoinNode.pushFilter`
iteration (join_node.go lines 162-190).  The boolean conditions of the
routing branch are conjunctive and side-effect free, so they are tested
in a single guard. -/
def pushFilterCore (router : Router) (σ : ColStore) (d : JoinData)
    (l r : PlanNode) (f : filterTuple) :
    (JoinData × PlanNode × PlanNode) × Option PlanErr :=
  if f.referTables.length == 1 then
    let tb := f.referTables.headD ""
    let tbInfo := getTI d.referredTables tb
    match f.col with
    | none =>
      let lr := updateLR tb (fun m => m.setWhereFilter f.expr) l r
      ((d, lr.1, lr.2), none)
    | some c =>
      let d1 := { d with tableFilter := d.tableFilter ++ [f] }
      match f.val with
      | some v =>
        if parentIndexLR l r tb == -1 && tbInfo.shardKey != ""
            && nameMatch σ c tb tbInfo.shardKey then
          -- `tbInfo.parent.index, err = j.router.GetIndex(...)`: the index
          -- is assigned even when the call also reports an error, and the
          -- error aborts the whole pass.
          let res := router tbInfo.database tbInfo.tableName v
          let lr := updateLR tb (fun m => { m with index := res.1 }) l r
          match res.2 with
          | some msg => ((d1, lr.1, lr.2), some (.routerErr msg))
          | none => ((d1, lr.1, lr.2), none)
        else ((d1, l, r), none)
      | none => ((d1, l, r), none)
  else
    if checkTbInNode f.referTables (referredTablesOf l) then
      ((d, attachLCA f.expr f.referTables l, r), none)
    else if checkTbInNode f.referTables (referredTablesOf r) then
      ((d, l, attachLCA f.expr f.referTables r), none)
    else (({ d with otherFilter := d.otherFilter ++ [f.expr] }, l, r), none)

/-- One iteration of the `JoinNode.pushFilter` loop (join_node.go lines
150-199). -/
def pushFilterStep (router : Router) (σ : ColStore)
    (rightTbs : List (String × TableInfo))
    (st : JoinData × PlanNode × PlanNode) (f : filterTuple) :
    (JoinData × PlanNode × PlanNode) × Option PlanErr :=
  let d := st.1
  let l := st.2.1
  let r := st.2.2
  if f.referTables.isEmpty then
    (({ d with noTableFilter := d.noTableFilter ++ [f.expr] }, l, r), none)
  else
    match (if d.IsLeftJoin then checkIsWithNull f rightTbs else none) with
    | some nf => (({ d with rightNull := d.rightNull ++ [nf] }, l, r), none)
    | none =>
      match pushFilterCore router σ d l r f with
      | (st1, some e) => (st1, some e)
      | ((d2, l2, r2), none) =>
        let d3 :=
          if d2.IsLeftJoin && !d2.HasRightFilter
              && f.referTables.any (fun tb => (lookupTI rightTbs tb).isSome) then
            { d2 with HasRightFilter := true }
          else d2
        ((d3, l2, r2), none)

/-- The `JoinNode.pushFilter` loop, aborting on the first error. -/
def pushFilterGo (router : Router) (σ : ColStore)
    (rightTbs : List (String × TableInfo)) :
    (JoinData × PlanNode × PlanNode) → List filterTuple →
    (JoinData × PlanNode × PlanNode) × Option PlanErr
  | st, [] => (st, none)
  | st, f :: fs =>
    match pushFilterStep router σ rightTbs st f with
    | (st1, none) => pushFilterGo router σ rightTbs st1 fs
    | (st1, some e) => (st1, some e)

/-- `JoinNode.pushFilter` (join_node.go lines 147-201); `rightTbs` is
taken from the right child once, before the loop, as in the source. -/
def pushFilter (router : Router) (σ : ColStore) (d : JoinData)
    (l r : PlanNode) (filters : List filterTuple) :
    (JoinData × PlanNode × PlanNode) × Option PlanErr :=
  pushFilterGo router σ (referredTablesOf r) (d, l, r) filters

/-- `filter.col.Qualifier.Name.String()` (the Go code dereferences the
column pointer; it is non-nil for every `tableFilter` entry). -/
def fcolTable (σ : ColStore) (f : filterTuple) : String :=
  match f.col with
  | some c => colTable σ c
  | none => ""

/-- `filter.col.Name.String()`. -/
def fcolField (σ : ColStore) (f : filterTuple) : String :=
  match f.col with
  | some c => colField σ c
  | none => ""

/-- Append a filter under join-on slot `i` of the `keyFilters` map
(`j.keyFilters[i] = append(j.keyFilters[i], filter)`). -/
def kfAppend (kfs : List (Nat × List filterTuple)) (i : Nat) (f : filterTuple) :
    List (Nat × List filterTuple) :=
  if kfs.any (fun p => p.1 == i) then
    kfs.map (fun p => if p.1 == i then (p.1, p.2 ++ [f]) else p)
  else kfs ++ [(i, [f])]

/-- First `joinOn` entry (with its index) whose selected column has the
given table and field names; `sel` picks the side to compare. -/
def findJoinOnBy (σ : ColStore) (sel : joinTuple → Nat) (table field : String) :
    List joinTuple → Nat → Option (Nat × joinTuple)
  | [], _ => none
  | jt :: rest, i =>
    if colTable σ (sel jt) == table && colField σ (sel jt) == field then some (i, jt)
    else findJoinOnBy σ sel table field rest (i + 1)

/-- The other-side routing step of `buildKeyFilter` (join_node.go lines
439-446 and 460-467): when the filter binds a literal and the other
side's column is that table's shard key on a still-unrouted Merge, the
Route Oracle is asked, and its error is discarded
(`tbInfo.parent.index, _ = j.router.GetIndex(...)`). -/
def routeOtherSide (router : Router) (σ : ColStore) (f : filterTuple)
    (reft : List (String × TableInfo)) (otherCol : Nat) (other : PlanNode) : PlanNode :=
  match f.val with
  | none => other
  | some v =>
    let ot := colTable σ otherCol
    let oc := colField σ otherCol
    let tbInfo := getTI reft ot
    if mergeIndexOf other ot == some (-1) && tbInfo.shardKey == oc then
      updateMergeOf ot
        (fun m => { m with index := (router tbInfo.database tbInfo.tableName v).1 }) other
    else other

/-- `JoinNode.buildKeyFilter` (join_node.go lines 429-477).  By the
`checkJoinOn` normalization, `joinOn[i].left` always belongs to the left
subtree and `joinOn[i].right` to the right subtree, so the other-side
Merge mutated by the routing step lives in the opposite child. -/
def buildKeyFilterPN (router : Router) (σ : ColStore) (f : filterTuple) :
    PlanNode → Bool → PlanNode × Bool
  | .merge m, isFind => (.merge m, isFind)
  | .join d l r, isFind =>
    let table := fcolTable σ f
    let field := fcolField σ f
    if (lookupTI (referredTablesOf l) (f.referTables.headD "")).isSome then
      match findJoinOnBy σ (·.left) table field d.joinOn 0 with
      | some (i, jt) =>
        let d1 := { d with keyFilters := kfAppend d.keyFilters i f }
        let r1 := routeOtherSide router σ f d.referredTables jt.right r
        match l with
        | .join _ _ _ =>
          let res := buildKeyFilterPN router σ f l true
          (.join d1 res.1 r1, res.2)
        | .merge _ => (.join d1 l r1, true)
      | none =>
        match l with
        | .join _ _ _ =>
          let res := buildKeyFilterPN router σ f l isFind
          (.join d res.1 r, res.2)
        | .merge _ => (.join d l r, isFind)
    else
      match findJoinOnBy σ (·.right) table field d.joinOn 0 with
      | some (i, jt) =>
        let d1 := { d with keyFilters := kfAppend d.keyFilters i f }
        let l1 := routeOtherSide router σ f d.referredTables jt.left l
        match r with
        | .join _ _ _ =>
          let res := buildKeyFilterPN router σ f r true
          (.join d1 l1 res.1, res.2)
        | .merge _ => (.join d1 l1 r, true)
      | none =>
        match r with
        | .join _ _ _ =>
          let res := buildKeyFilterPN router σ f r isFind
          (.join d l res.1, res.2)
        | .merge _ => (.join d l r, isFind)

theorem psize_routeOtherSide (router : Router) (σ : ColStore) (f : filterTuple)
    (reft : List (String × TableInfo)) (c : Nat) (t : PlanNode) :
    psize (routeOtherSide router σ f reft c t) = psize t := by
  unfold routeOtherSide
  cases f.val <;> simp
  split <;> simp [psize_updateMergeOf]

theorem psize_buildKeyFilterPN (router : Router) (σ : ColStore) (f : filterTuple) :
    ∀ t b, psize (buildKeyFilterPN router σ f t b).1 = psize t := by
  intro t
  induction t with
  | merge m => intro b; simp [buildKeyFilterPN]
  | join d l r ihl ihr =>
    intro b
    simp only [buildKeyFilterPN]
    split
    · split
      · cases l <;> simp [psize, ihl, psize_routeOtherSide]
      · cases l <;> simp [psize, ihl]
    · split
      · cases r <;> simp [psize, ihr, psize_routeOtherSide]
      · cases r <;> simp [psize, ihr]

/-- One `tableFilter` iteration of `calcRoute` (join_node.go lines
376-381): build the key filter; when no join-on key matches anywhere,
attach the filter to its table's owning Merge instead. -/
def phase1Step (router : Router) (σ : ColStore) (f : filterTuple) (t : PlanNode) : PlanNode :=
  let res := buildKeyFilterPN router σ f t false
  if res.2 then res.1
  else updateMergeOf (f.referTables.headD "") (fun m => m.setWhereFilter f.expr) res.1

/-- The `tableFilter` loop at the head of `JoinNode.calcRoute`. -/
def calcRoutePhase1 (router : Router) (σ : ColStore) (t : PlanNode) : PlanNode :=
  match t with
  | .merge m => .merge m
  | .join d l r => d.tableFilter.foldl (fun acc f => phase1Step router σ f acc) (.join d l r)

theorem psize_phase1Step (router : Router) (σ : ColStore) (f : filterTuple) (t : PlanNode) :
    psize (phase1Step router σ f t) = psize t := by
  unfold phase1Step
  cases hb : (buildKeyFilterPN router σ f t false).2 <;>
    simp [hb, psize_buildKeyFilterPN, psize_updateMergeOf]

theorem psize_calcRoutePhase1 (router : Router) (σ : ColStore) (t : PlanNode) :
    psize (calcRoutePhase1 router σ t) = psize t := by
  cases t with
  | merge m => rfl
  | join d l r =>
    show psize (List.foldl _ (.join d l r) d.tableFilter) = _
    generalize PlanNode.join d l r = acc
    induction d.tableFilter generalizing acc with
    | nil => rfl
    | cons f fs ih => simp only [List.foldl_cons]; rw [ih, psize_phase1Step]

/-- Modelled from the spec: `mergeRoutes` (not in the provided sources)
merges two co-routed Merge nodes into one, concatenating their
accumulated state; `shardCount == 0` denotes unresolved and inherits from
the other side. -/
def mergeRoutes (lmn rmn : MergeData) : MergeData :=
  { referredTables := lmn.referredTables ++ rmn.referredTables
    fields := lmn.fields ++ rmn.fields
    filters := lmn.filters ++ rmn.filters
    orderBy := lmn.orderBy ++ rmn.orderBy
    having := lmn.having ++ rmn.having
    index := lmn.index
    backend := lmn.backend
    shardCount := if lmn.shardCount == 0 then rmn.shardCount else lmn.shardCount
    routeLen := lmn.routeLen
    hasParen := false
    built := [] }

/-- The WHERE-filter transfer of the `calcRoute` collapse (join_node.go
lines 401-416): `otherFilter`, the `keyFilters` map values,
`noTableFilter`, and — for comma joins with a non-empty `joinOn` — the
`joinOn` equalities are attached to the merged node. -/
def collapseAttach (d1 : JoinData) (mn0 : MergeData) : MergeData :=
  let mn1 := d1.otherFilter.foldl (fun m e => m.setWhereFilter e) mn0
  let mn2 := d1.keyFilters.foldl
    (fun m p => p.2.foldl (fun m f => m.setWhereFilter f.expr) m) mn1
  let mn3 := d1.noTableFilter.foldl (fun m e => m.setWhereFilter e) mn2
  if d1.joinExpr.isNone && decide (0 < d1.joinOn.length) then
    d1.joinOn.foldl (fun m jt => m.setWhereFilter jt.expr) mn3
  else mn3

/-- `JoinNode.calcRoute` (join_node.go lines 374-423) together with the
Merge leaf case, which is modelled from the spec (the spec describes a
Merge leaf only as carrying `backend`/`shardCount`, so its `calcRoute`
returns the node unchanged and cannot fail). -/
def calcRoute (router : Router) (σ : ColStore) : PlanNode → PlanNode × Option PlanErr
  | .merge m => (.merge m, none)
  | .join d l r =>
    match h : calcRoutePhase1 router σ (.join d l r) with
    | .merge m => (.merge m, none)
    | .join d1 l1 r1 =>
      match calcRoute router σ l1 with
      | (l2, some e) => (.join d1 l2 r1, some e)
      | (l2, none) =>
        match calcRoute router σ r1 with
        | (r2, some e) => (.join d1 l2 r2, some e)
        | (r2, none) =>
          match l2, r2 with
          | .merge lmn, .merge rmn =>
            if (lmn.backend != "" && lmn.backend == rmn.backend)
                || rmn.shardCount == 0 || lmn.shardCount == 0 then
              let lmn1 :=
                if lmn.shardCount == 0 then
                  { lmn with backend := rmn.backend, routeLen := rmn.routeLen, index := rmn.index }
                else lmn
              (.merge (collapseAttach d1 { mergeRoutes lmn1 rmn with hasParen := d1.hasParen }),
               none)
            else (.join d1 (.merge lmn) (.merge rmn), none)
          | l2, r2 => (.join d1 l2 r2, none)
termination_by t => psize t
decreasing_by
  · rename_i l r
    have hp := psize_calcRoutePhase1 router σ (.join d l r)
    rw [h] at hp
    simp only [psize] at hp ⊢
    omega
  · rename_i l r
    have hp := psize_calcRoutePhase1 router σ (.join d l r)
    rw [h] at hp
    simp only [psize] at hp ⊢
    omega

/-- `JoinNode.pushSelectExpr` (join_node.go lines 615-636), together with
the Merge leaf case (modelled from the spec: a Merge appends the select
expression and returns its index).  Returns
`(index, node after push, error)`. -/
def pushSelectExprPN (σ : ColStore) (field : selectTuple) :
    PlanNode → Int × PlanNode × Option PlanErr
  | .merge m =>
    let res := m.pushSelectExpr field
    ((res.1 : Int), .merge res.2, none)
  | .join d l r =>
    if checkTbInNode field.referTables (referredTablesOf l) then
      match pushSelectExprPN σ field l with
      | (index, l1, none) =>
        ((d.fields.length : Int),
         .join { d with Cols := d.Cols ++ [-index - 1], fields := d.fields ++ [field] } l1 r,
         none)
      | (_, l1, some e) => (-1, .join d l1 r, some e)
    else if checkTbInNode field.referTables (referredTablesOf r) then
      match pushSelectExprPN σ field r with
      | (index, r1, none) =>
        ((d.fields.length : Int),
         .join { d with Cols := d.Cols ++ [index + 1], fields := d.fields ++ [field] } l r1,
         none)
      | (_, r1, some e) => (-1, .join d l r1, some e)
    else (-1, .join d l r, some (.exprInCrossShardJoin (fmtExpr σ field.expr)))

/-- Scan of a projection list for a plain column `(table, field)`
(join_node.go lines 671-678 and 588-594); `-1` when absent. -/
def findFieldIndex (table field : String) : List selectTuple → Nat → Int
  | [], _ => -1
  | t :: rest, i =>
    if t.referTables.length == 1 && table == t.referTables.headD "" && field == t.field then
      (i : Int)
    else findFieldIndex table field rest (i + 1)

/-- `JoinNode.buildOrderBy` (join_node.go lines 668-697): locate (or
synthesize) the key column in the child projection, append an ascending
ORDER BY when the child is a Merge, and return the `JoinKey`.  The
synthesis error is discarded (`index, _ = node.pushSelectExpr(tuple)`). -/
def buildOrderByF (σ : ColStore) (c : Nat) (node : PlanNode) : JoinKey × PlanNode :=
  let field := colField σ c
  let table := colTable σ c
  let idx0 := findFieldIndex table field (fieldsOf node) 0
  let res :=
    if idx0 == -1 then
      let tuple : selectTuple := { expr := .col c, field := field, referTables := [table] }
      let p := pushSelectExprPN σ tuple node
      (p.1, p.2.1)
    else (idx0, node)
  let node2 :=
    match res.2 with
    | .merge m => PlanNode.merge { m with orderBy := m.orderBy ++ [c] }
    | t => t
  (⟨field, table, res.1⟩, node2)

/-- One `joinOn` iteration of `JoinNode.handleJoinOn` (join_node.go lines
653-665): build both side keys, update the uniqueness flags when the
corresponding child is a Merge, and append to `LeftKeys`/`RightKeys`. -/
def handleJoinOnStep (σ : ColStore) (lok rok : Bool)
    (acc : JoinData × PlanNode × PlanNode) (jt : joinTuple) :
    JoinData × PlanNode × PlanNode :=
  let dc := acc.1
  let lres := buildOrderByF σ jt.left acc.2.1
  let leftKey := lres.1
  let dc1 :=
    if lok && !dc.LeftUnique then
      { dc with LeftUnique :=
          leftKey.Field == (getTI dc.referredTables leftKey.Table).shardKey }
    else dc
  let dc2 := { dc1 with LeftKeys := dc1.LeftKeys ++ [leftKey] }
  let rres := buildOrderByF σ jt.right acc.2.2
  let rightKey := rres.1
  let dc3 :=
    if rok && !dc2.RightUnique then
      { dc2 with RightUnique :=
          rightKey.Field == (getTI dc2.referredTables rightKey.Table).shardKey }
    else dc2
  let dc4 := { dc3 with RightKeys := dc3.RightKeys ++ [rightKey] }
  (dc4, lres.2, rres.2)

/-- `JoinNode.handleJoinOn` (join_node.go lines 639-666), post-order over
the join children, then one `buildOrderBy` per side and per `joinOn`
entry. -/
def isMergeNode : PlanNode → Bool
  | .merge _ => true
  | .join _ _ _ => false

def handleJoinOnPN (σ : ColStore) : PlanNode → PlanNode
  | .merge m => .merge m
  | .join d l r =>
    let l0 := handleJoinOnPN σ l
    let r0 := handleJoinOnPN σ r
    let lok := isMergeNode l
    let rok := isMergeNode r
    let fin := d.joinOn.foldl (handleJoinOnStep σ lok rok) (d, l0, r0)
    .join fin.1 fin.2.1 fin.2.2

/-- `JoinNode.pushOtherFilter` (join_node.go lines 582-613): reuse the
projected column when the operand is a plain column already selected,
otherwise synthesize a `tmpo_<idx>` projection on the node. -/
def pushOtherFilterF (σ : ColStore) (expr : Expr) (node : PlanNode)
    (tbs : List String) (idx : Nat) : (Int × PlanNode × Nat) × Option PlanErr :=
  let index0 :=
    match expr with
    | .col c => findFieldIndex (colTable σ c) (colField σ c) (fieldsOf node) 0
    | _ => -1
  if index0 == -1 then
    let tmpoName := "tmpo_" ++ toString idx
    let tuple : selectTuple := { expr := expr, field := tmpoName, referTables := tbs }
    let res := pushSelectExprPN σ tuple node
    match res.2.2 with
    | some e => ((res.1, res.2.1, idx), some e)
    | none => ((res.1, res.2.1, idx + 1), none)
  else ((index0, node, idx), none)

/-- `JoinNode.pushOtherFilters` (join_node.go lines 541-579): each
residual must be a binary comparison whose operands split across the two
sides (possibly exchanged); each operand is projected on its side and the
`Comparison` is recorded. -/
def pushOtherFiltersGo (σ : ColStore) :
    (JoinData × PlanNode × PlanNode × Nat) → List Expr →
    (JoinData × PlanNode × PlanNode × Nat) × Option PlanErr
  | st, [] => (st, none)
  | (d, l, r, idx), expr :: rest =>
    match expr with
    | .cmp op el er =>
      let left := getTbInExpr σ el
      let right := getTbInExpr σ er
      let ltb := referredTablesOf l
      let rtb := referredTablesOf r
      if checkTbInNode left ltb && checkTbInNode right rtb then
        match pushOtherFilterF σ el l left idx with
        | ((_, l1, idx1), some e) => ((d, l1, r, idx1), some e)
        | ((lidx, l1, idx1), none) =>
          match pushOtherFilterF σ er r right idx1 with
          | ((_, r1, idx2), some e) => ((d, l1, r1, idx2), some e)
          | ((ridx, r1, idx2), none) =>
            pushOtherFiltersGo σ
              ({ d with CmpFilter := d.CmpFilter ++ [⟨lidx, ridx, op, false⟩] }, l1, r1, idx2)
              rest
      else if checkTbInNode left rtb && checkTbInNode right ltb then
        match pushOtherFilterF σ er l right idx with
        | ((_, l1, idx1), some e) => ((d, l1, r, idx1), some e)
        | ((lidx, l1, idx1), none) =>
          match pushOtherFilterF σ el r left idx1 with
          | ((_, r1, idx2), some e) => ((d, l1, r1, idx2), some e)
          | ((ridx, r1, idx2), none) =>
            pushOtherFiltersGo σ
              ({ d with CmpFilter := d.CmpFilter ++ [⟨lidx, ridx, op, true⟩] }, l1, r1, idx2)
              rest
      else ((d, l, r, idx), some (.clauseInCrossShardJoin (fmtExpr σ expr)))
    | _ => ((d, l, r, idx), some (.clauseInCrossShardJoin (fmtExpr σ expr)))

/-- The `findLCA`-and-attach walk used for predicates that must land on a
Merge (join_node.go lines 281-299 and 709-727): descend to the lowest
node covering the tables; attach via `app` on a Merge, fail with `err` on
a Join. -/
def attachMergeLCA (app : MergeData → MergeData) (tbs : List String) (err : PlanErr) :
    PlanNode → PlanNode × Option PlanErr
  | .merge m => (.merge (app m), none)
  | .join d l r =>
    if checkTbInNode tbs (referredTablesOf l) then
      let res := attachMergeLCA app tbs err l
      (.join d res.1 r, res.2)
    else if checkTbInNode tbs (referredTablesOf r) then
      let res := attachMergeLCA app tbs err r
      (.join d l res.1, res.2)
    else (.join d l r, some err)

/-- The `otherJoinOn.left` loop of `pushOtherJoin` (join_node.go lines
270-278): each left-only ON predicate becomes a projection of the left
child; its index is recorded in `LeftTmpCols`. -/
def pushOtherJoinLeft (σ : ColStore) :
    JoinData → PlanNode → List selectTuple → (JoinData × PlanNode) × Option PlanErr
  | d, l, [] => ((d, l), none)
  | d, l, f :: fs =>
    match pushSelectExprPN σ f l with
    | (index, l1, none) =>
      pushOtherJoinLeft σ { d with LeftTmpCols := d.LeftTmpCols ++ [index] } l1 fs
    | (_, l1, some e) => ((d, l1), some e)

/-- The `otherJoinOn.right` loop of `pushOtherJoin` (join_node.go lines
279-300): each right-only ON predicate is attached as WHERE on its LCA
inside the right child, which must be a Merge. -/
def pushOtherJoinRight (σ : ColStore) :
    PlanNode → List filterTuple → PlanNode × Option PlanErr
  | r, [] => (r, none)
  | r, f :: fs =>
    match attachMergeLCA (fun m => m.setWhereFilter f.expr) f.referTables
        (.onClauseInCrossShardJoin (fmtExpr σ f.expr)) r with
    | (r1, none) => pushOtherJoinRight σ r1 fs
    | (r1, some e) => (r1, some e)

/-- `JoinNode.pushOtherJoin` (join_node.go lines 260-303). -/
def pushOtherJoinJ (σ : ColStore) (st : JoinData × PlanNode × PlanNode × Nat) :
    (JoinData × PlanNode × PlanNode × Nat) × Option PlanErr :=
  let d := st.1
  match d.otherJoinOn with
  | none => (st, none)
  | some oj =>
    match pushOtherFiltersGo σ st oj.others with
    | (st1, some e) => (st1, some e)
    | ((d1, l1, r1, idx1), none) =>
      let r2 := setNoTableFilterPN r1 oj.noTables
      match pushOtherJoinLeft σ d1 l1 oj.left with
      | ((d2, l2), some e) => ((d2, l2, r2, idx1), some e)
      | ((d2, l2), none) =>
        match pushOtherJoinRight σ r2 oj.right with
        | (r3, some e) => ((d2, l2, r3, idx1), some e)
        | (r3, none) => ((d2, l2, r3, idx1), none)

/-- `JoinNode.pushNullExprs` (join_node.go lines 529-538): every
`rightNull` predicate is projected on the right child and its index is
recorded in `RightTmpCols`. -/
def pushNullExprsGo (σ : ColStore) :
    (JoinData × PlanNode × Nat) → List nullExpr →
    (JoinData × PlanNode × Nat) × Option PlanErr
  | st, [] => (st, none)
  | (d, r, idx), t :: ts =>
    match pushOtherFilterF σ t.expr r t.referTables idx with
    | ((index, r1, idx1), none) =>
      pushNullExprsGo σ ({ d with RightTmpCols := d.RightTmpCols ++ [index] }, r1, idx1) ts
    | ((_, r1, idx1), some e) => ((d, r1, idx1), some e)

/-- `JoinNode.handleOthers` (join_node.go lines 502-526), post-order, then
`pushOtherJoin`, `pushNullExprs` and `pushOtherFilters` at this node with
one shared `idx` counter. -/
def handleOthersPN (σ : ColStore) : PlanNode → PlanNode × Option PlanErr
  | .merge m => (.merge m, none)
  | .join d l r =>
    match handleOthersPN σ l with
    | (l1, some e) => (.join d l1 r, some e)
    | (l1, none) =>
      match handleOthersPN σ r with
      | (r1, some e) => (.join d l1 r1, some e)
      | (r1, none) =>
        match pushOtherJoinJ σ (d, l1, r1, 0) with
        | ((d1, l2, r2, _), some e) => (.join d1 l2 r2, some e)
        | ((d1, l2, r2, idx1), none) =>
          match pushNullExprsGo σ (d1, r2, idx1) d1.rightNull with
          | ((d2, r3, _), some e) => (.join d2 l2 r3, some e)
          | ((d2, r3, idx2), none) =>
            match pushOtherFiltersGo σ (d2, l2, r3, idx2) d2.otherFilter with
            | ((d3, l3, r4, _), err) => (.join d3 l3 r4, err)

/-- The projection loop of `pushSelectExprs` (join_node.go lines
491-495). -/
def pushSelectExprsLoop (σ : ColStore) : PlanNode → List selectTuple →
    PlanNode × Option PlanErr
  | t, [] => (t, none)
  | t, f :: fs =>
    match pushSelectExprPN σ f t with
    | (_, t1, none) => pushSelectExprsLoop σ t1 fs
    | (_, t1, some e) => (t1, some e)

/-- `JoinNode.pushSelectExprs` (join_node.go lines 480-499).  The grouped
case attaches an Aggregate child plan; `NewAggregatePlan(...).Build()` is
modelled from the spec as succeeding (the aggregate plan source is not
among the provided files and the spec states no failure for it here). -/
def pushSelectExprsJ (σ : ColStore) (d : JoinData) (l r : PlanNode)
    (fields groups : List selectTuple) (hasAggregates : Bool) :
    PlanNode × Option PlanErr :=
  if hasAggregates then (.join d l r, some .aggregates)
  else
    let d1 :=
      if 0 < groups.length then { d with children := d.children ++ [.aggregate] } else d
    match pushSelectExprsLoop σ (.join d1 l r) fields with
    | (t1, some e) => (t1, some e)
    | (t1, none) => handleOthersPN σ (handleJoinOnPN σ t1)

/-- One filter of `JoinNode.pushHaving` (join_node.go lines 701-728),
together with the Merge case, modelled from the spec (`sel.AddHaving` on
the Merge, no failure).  Child errors of the broadcast branch are
discarded exactly as in the source (`j.Left.pushHaving(...)` is a bare
statement). -/
def pushHaving1 (σ : ColStore) : PlanNode → filterTuple → PlanNode × Option PlanErr
  | .merge m, f => (.merge (m.addHaving f.expr), none)
  | .join d l r, f =>
    if f.referTables.isEmpty then
      let l1 := (pushHaving1 σ l f).1
      let r1 := (pushHaving1 σ r f).1
      (.join d l1 r1, none)
    else if f.referTables.length == 1 then
      let tb := f.referTables.headD ""
      let lr := updateLR tb (fun m => m.addHaving f.expr) l r
      (.join d lr.1 lr.2, none)
    else
      attachMergeLCA (fun m => m.addHaving f.expr) f.referTables
        (.havingsInCrossShardJoin (fmtExpr σ f.expr)) (.join d l r)

/-- The `JoinNode.pushHaving` loop, aborting on the first error. -/
def pushHavingGo (σ : ColStore) : PlanNode → List filterTuple → PlanNode × Option PlanErr
  | t, [] => (t, none)
  | t, f :: fs =>
    match pushHaving1 σ t f with
    | (t1, none) => pushHavingGo σ t1 fs
    | (t1, some e) => (t1, some e)

/-- The per-side `keyFilters` loop of `buildQuery` (join_node.go lines
784-793 and 797-806): for each key filter of slot `i`, the shared
`ColName` cell is rewritten in place to the local side key's table and
field, and the filter expression is inserted into the filter set of the
Merge owning that table.  (The Go map iteration order is arbitrary; the
association list order is one admissible order.  An out-of-range slot
would panic in Go; the default `JoinKey` stands for that inapplicable
case.) -/
def keyFilterSide (σ : ColStore) (keys : List JoinKey)
    (kfs : List (Nat × List filterTuple)) (child : PlanNode) : ColStore × PlanNode :=
  kfs.foldl
    (fun acc p =>
      let key := keys.getD p.1 ⟨"", "", 0⟩
      p.2.foldl
        (fun (acc2 : ColStore × PlanNode) f =>
          let σ1 :=
            match f.col with
            | some c => setCol acc2.1 c key.Table key.Field
            | none => acc2.1
          (σ1,
           updateMergeOf key.Table
             (fun m => { m with filters := m.filters ++ [f.expr] }) acc2.2))
        acc)
    (σ, child)

theorem psize_keyFilterSide (σ : ColStore) (keys : List JoinKey)
    (kfs : List (Nat × List filterTuple)) (child : PlanNode) :
    psize (keyFilterSide σ keys kfs child).2 = psize child := by
  unfold keyFilterSide
  generalize hacc : (σ, child) = acc
  have hstart : psize acc.2 = psize child := by rw [← hacc]
  clear hacc
  induction kfs generalizing acc with
  | nil => simpa using hstart
  | cons p ps ih =>
    simp only [List.foldl_cons]
    apply ih
    generalize p.2 = fs
    induction fs generalizing acc with
    | nil => simpa using hstart
    | cons f fs ihf =>
      simp only [List.foldl_cons]
      apply ihf
      simp [psize_updateMergeOf, hstart]

/-- `JoinNode.buildQuery` (join_node.go lines 776-808) together with the
Merge leaf case: a Merge renders its emitted query, fixing the WHERE
texts against the column store at build time (modelled from the spec,
the merge node source not being among the provided files).  The column
store is threaded left to right, so the left query is rendered before the
key-filter columns are rewritten for the right side. -/
def buildQueryPN (σ : ColStore) : PlanNode → ColStore × PlanNode
  | .merge m => (σ, .merge (m.buildQuery σ))
  | .join d l r =>
    let d1 := { d with Strategy :=
        if d.LeftKeys.isEmpty && d.CmpFilter.isEmpty then JoinStrategy.Cartesian
        else JoinStrategy.SortMerge }
    let l1 := setNoTableFilterPN l d1.noTableFilter
    let lks := keyFilterSide σ d1.LeftKeys d1.keyFilters l1
    let lres := buildQueryPN lks.1 lks.2
    let r1 := setNoTableFilterPN r d1.noTableFilter
    let rks := keyFilterSide lres.1 d1.RightKeys d1.keyFilters r1
    let rres := buildQueryPN rks.1 rks.2
    (rres.1, .join d1 lres.2 rres.2)
termination_by t => psize t
decreasing_by
  · simp only [psize_keyFilterSide, psize_setNoTableFilterPN, psize]
    omega
  · simp only [psize_keyFilterSide, psize_setNoTableFilterPN, psize]
    omega

/-- Order-by expressions as `OrderByPlan.analyze` distinguishes them: a
plain `sqlparser.ColName` or anything else (carried with its printed
form, used in the default-branch error message). -/
inductive OrdExpr where
  | col (name qualifier : String)
  | other (sql : String)
deriving DecidableEq

/-- One `sqlparser.Order`: expression plus direction string
(`"asc"`/`"desc"` from the parser). -/
structure Order where
  Expr : OrdExpr
  Direction : String
deriving DecidableEq

/-- The `OrderBy` tuple of orderby_plan.go (Direction is the string type
`Direction` with `""` as its Go zero value). -/
structure OrderByT where
  Field : String
  Table : String
  Direction : String
deriving DecidableEq

/-- Modelled from the spec: `checkInTuple` (not in the provided sources)
decides whether the ordering column is in the select list — its field
matches a tuple's output field and, when qualified, the table is among
that tuple's referred tables. -/
def checkInTuple (field table : String) (tuples : List selectTuple) : Bool :=
  tuples.any (fun t => t.field == field && (table == "" || t.referTables.contains table))

/-- One iteration of the `OrderByPlan.analyze` loop (orderby_plan.go
lines 71-94): either the `OrderBy` tuple to append, or the error. -/
def analyzeStep (tuples : List selectTuple) (tbInfos : List (String × TableInfo))
    (o : Order) : OrderByT ⊕ PlanErr :=
  match o.Expr with
  | .col name qualifier =>
    let dir :=
      if o.Direction == "desc" then "DESC"
      else if o.Direction == "asc" then "ASC"
      else ""
    if qualifier != "" && (lookupTI tbInfos qualifier).isNone then
      .inr (.unknowTable qualifier name)
    else if !(checkInTuple name qualifier tuples) then
      .inr (.orderbyShouldInSelect name)
    else .inl ⟨name, qualifier, dir⟩
  | .other s => .inr (.orderbyUnsupported s)

/-- `OrderByPlan.analyze` (orderby_plan.go lines 68-97); `acc` is the
accumulated `p.OrderBys`. -/
def analyze (tuples : List selectTuple) (tbInfos : List (String × TableInfo)) :
    List Order → List OrderByT → List OrderByT × Option PlanErr
  | [], acc => (acc, none)
  | o :: os, acc =>
    match analyzeStep tuples tbInfos o with
    | .inl ob => analyze tuples tbInfos os (acc ++ [ob])
    | .inr e => (acc, some e)

/-- `OrderByPlan.Build` (orderby_plan.go lines 100-102). -/
def orderByPlanBuild (tuples : List selectTuple) (tbInfos : List (String × TableInfo))
    (orders : List Order) : List OrderByT × Option PlanErr :=
  analyze tuples tbInfos orders []

/-- The join strategy recorded on a node (a Merge has none; `Cartesian`
is the Go zero value of the field). -/
def strategyOf : PlanNode → JoinStrategy
  | .merge _ => .Cartesian
  | .join d _ _ => d.Strategy

/-- A fresh `JoinNode` state as `newJoinNode` creates it (all accumulators
empty, `Cartesian` being the zero value of the strategy). -/
def JoinData0 (reft : List (String × TableInfo)) : JoinData :=
  { referredTables := reft, joinExpr := none, hasParen := false, Strategy := .Cartesian,
    Cols := [], fields := [], joinOn := [], LeftKeys := [], RightKeys := [],
    CmpFilter := [], LeftUnique := false, RightUnique := false, tableFilter := [],
    otherFilter := [], noTableFilter := [], otherJoinOn := none, rightNull := [],
    IsLeftJoin := false, HasRightFilter := false, LeftTmpCols := [], RightTmpCols := [],
    keyFilters := [], children := [] }

/-- A fresh, unrouted Merge leaf (`index == -1` marks it unrouted). -/
def MergeData0 (reft : List (String × TableInfo)) : MergeData :=
  { referredTables := reft, fields := [], filters := [], orderBy := [], having := [],
    index := -1, backend := "", shardCount := 0, routeLen := 0, hasParen := false,
    built := [] }

/-- Whether one ORDER BY entry passes every check of
`OrderByPlan.analyze`. -/
def orderOK (tuples : List selectTuple) (tbInfos : List (String × TableInfo))
    (o : Order) : Bool :=
  match o.Expr with
  | .col n q => (q == "" || (lookupTI tbInfos q).isSome) && checkInTuple n q tuples
  | .other _ => false

/-- C10: calling `pushSelectExprs` on a JoinNode with `hasAggregates =
true` returns exactly the error `unsupported:
cross-shard.query.with.aggregates` and leaves the node, its children and
its child-plan list untouched: the aggregate check precedes every push
and every child-plan addition. -/
theorem C10_pushSelectExprs_aggregates_pure (σ : ColStore) (d : JoinData)
    (l r : PlanNode) (fields groups : List selectTuple) :
    pushSelectExprsJ σ d l r fields groups true = (.join d l r, some .aggregates) ∧
    PlanErr.render .aggregates = "unsupported: cross-shard.query.with.aggregates" :=
  ⟨rfl, rfl⟩

/-- C5: after `buildQuery` the join strategy is `SortMerge` exactly when
`LeftKeys` or `CmpFilter` is non-empty, and `Cartesian` otherwise. -/
theorem C5_buildQuery_strategy (σ : ColStore) (d : JoinData) (l r : PlanNode) :
    (strategyOf (buildQueryPN σ (.join d l r)).2 = JoinStrategy.SortMerge ↔
      (d.LeftKeys ≠ [] ∨ d.CmpFilter ≠ [])) ∧
    (strategyOf (buildQueryPN σ (.join d l r)).2 = JoinStrategy.Cartesian ↔
      (d.LeftKeys = [] ∧ d.CmpFilter = [])) := by
  rw [buildQueryPN]
  by_cases hk : d.LeftKeys = [] <;> by_cases hc : d.CmpFilter = [] <;>
    simp [strategyOf, hk, hc, List.isEmpty_iff]

theorem analyzeStep_inl_orderOK (tuples : List selectTuple)
    (tbInfos : List (String × TableInfo)) (o : Order) (ob : OrderByT)
    (h : analyzeStep tuples tbInfos o = .inl ob) :
    orderOK tuples tbInfos o = true := by
  unfold analyzeStep at h
  unfold orderOK
  cases he : o.Expr with
  | other s => rw [he] at h; simp at h
  | col n q =>
    rw [he] at h
    cases hq : (q == "") <;> cases hn : lookupTI tbInfos q <;>
      cases hit : checkInTuple n q tuples <;>
      simp_all [bne]

theorem orderOK_analyzeStep (tuples : List selectTuple)
    (tbInfos : List (String × TableInfo)) (o : Order)
    (h : orderOK tuples tbInfos o = true) :
    ∃ ob, analyzeStep tuples tbInfos o = .inl ob := by
  unfold orderOK at h
  unfold analyzeStep
  cases he : o.Expr with
  | other s => rw [he] at h; simp at h
  | col n q =>
    rw [he] at h
    cases hq : (q == "") <;> cases hn : lookupTI tbInfos q <;>
      cases hit : checkInTuple n q tuples <;>
      simp_all [bne]

theorem analyzeStep_notInSelect (tuples : List selectTuple)
    (tbInfos : List (String × TableInfo)) (n q dir : String)
    (hq : (q == "" || (lookupTI tbInfos q).isSome) = true)
    (hit : checkInTuple n q tuples = false) :
    analyzeStep tuples tbInfos ⟨.col n q, dir⟩ = .inr (.orderbyShouldInSelect n) := by
  unfold analyzeStep
  cases hqe : (q == "") <;> cases hn : lookupTI tbInfos q <;> simp_all [bne]

theorem analyzeStep_unknowTable (tuples : List selectTuple)
    (tbInfos : List (String × TableInfo)) (n q dir : String)
    (hq : q ≠ "") (hn : lookupTI tbInfos q = none) :
    analyzeStep tuples tbInfos ⟨.col n q, dir⟩ = .inr (.unknowTable q n) := by
  unfold analyzeStep
  cases hqe : (q == "") with
  | true => exact absurd (by simpa using hqe) hq
  | false => simp [bne, hqe, hn]

theorem analyze_append_ok (tuples : List selectTuple)
    (tbInfos : List (String × TableInfo)) :
    ∀ (pre rest : List Order) (acc : List OrderByT),
      pre.all (orderOK tuples tbInfos) = true →
      ∃ acc2, analyze tuples tbInfos (pre ++ rest) acc =
        analyze tuples tbInfos rest acc2 := by
  intro pre
  induction pre with
  | nil => intro rest acc _; exact ⟨acc, rfl⟩
  | cons o os ih =>
    intro rest acc hall
    rw [List.all_cons, Bool.and_eq_true] at hall
    obtain ⟨ob, hob⟩ := orderOK_analyzeStep tuples tbInfos o hall.1
    rw [List.cons_append, analyze]
    simp only [hob]
    exact ih rest (acc ++ [ob]) hall.2

theorem analyze_ok_sound (tuples : List selectTuple)
    (tbInfos : List (String × TableInfo)) :
    ∀ orders acc, (analyze tuples tbInfos orders acc).2 = none →
      ∀ o ∈ orders, orderOK tuples tbInfos o = true := by
  intro orders
  induction orders with
  | nil => intro acc _ o ho; cases ho
  | cons o os ih =>
    intro acc h p hp
    rw [analyze] at h
    cases hs : analyzeStep tuples tbInfos o with
    | inr e => simp only [hs] at h; exact absurd h (by simp)
    | inl ob =>
      simp only [hs] at h
      rcases List.mem_cons.mp hp with rfl | hp
      · exact analyzeStep_inl_orderOK _ _ _ _ hs
      · exact ih _ h p hp

/-- C9: `OrderByPlan.Build` succeeds only when every ordering expression
is a plain column passing the table and select-list checks; the first
plain column absent from the select list produces exactly
`unsupported: orderby[<field>].should.in.select.list`, and the first
unknown qualifier produces exactly
`unsupported: unknow.table.in.order.by.field[<table>.<field>]`. -/
theorem C9_orderby_analyze (tuples : List selectTuple)
    (tbInfos : List (String × TableInfo)) :
    (∀ orders, (orderByPlanBuild tuples tbInfos orders).2 = none →
       ∀ o ∈ orders, orderOK tuples tbInfos o = true) ∧
    (∀ pre post n q dir, pre.all (orderOK tuples tbInfos) = true →
       (q == "" || (lookupTI tbInfos q).isSome) = true →
       checkInTuple n q tuples = false →
       (orderByPlanBuild tuples tbInfos
           (pre ++ (⟨.col n q, dir⟩ : Order) :: post)).2 =
           some (.orderbyShouldInSelect n) ∧
       (PlanErr.orderbyShouldInSelect n).render =
           "unsupported: orderby[" ++ n ++ "].should.in.select.list") ∧
    (∀ pre post n q dir, pre.all (orderOK tuples tbInfos) = true →
       q ≠ "" → lookupTI tbInfos q = none →
       (orderByPlanBuild tuples tbInfos
           (pre ++ (⟨.col n q, dir⟩ : Order) :: post)).2 =
           some (.unknowTable q n) ∧
       (PlanErr.unknowTable q n).render =
           "unsupported: unknow.table.in.order.by.field[" ++ q ++ "." ++ n ++ "]") := by
  refine ⟨fun orders h => analyze_ok_sound tuples tbInfos orders [] h, ?_, ?_⟩
  · intro pre post n q dir hall hq hit
    obtain ⟨acc2, hacc⟩ :=
      analyze_append_ok tuples tbInfos pre ((⟨.col n q, dir⟩ : Order) :: post) [] hall
    constructor
    · unfold orderByPlanBuild
      rw [hacc, analyze, analyzeStep_notInSelect tuples tbInfos n q dir hq hit]
    · show "unsupported: " ++ ("orderby[" ++ n ++ "].should.in.select.list") = _
      rw [← String.append_assoc]
      rfl
  · intro pre post n q dir hall hq hn
    obtain ⟨acc2, hacc⟩ :=
      analyze_append_ok tuples tbInfos pre ((⟨.col n q, dir⟩ : Order) :: post) [] hall
    constructor
    · unfold orderByPlanBuild
      rw [hacc, analyze, analyzeStep_unknowTable tuples tbInfos n q dir hq hn]
    · show "unsupported: " ++ ("unknow.table.in.order.by.field[" ++ q ++ "." ++ n ++ "]") = _
      rw [← String.append_assoc]
      rfl

theorem pushFilterCore_pres (router : Router) (σ : ColStore) (d : JoinData)
    (l r : PlanNode) (f : filterTuple) :
    (pushFilterCore router σ d l r f).1.1.IsLeftJoin = d.IsLeftJoin ∧
    (pushFilterCore router σ d l r f).1.1.HasRightFilter = d.HasRightFilter ∧
    (pushFilterCore router σ d l r f).1.1.rightNull = d.rightNull := by
  refine ⟨?_, ?_, ?_⟩ <;>
    · unfold pushFilterCore
      repeat' first | split | simp only []
      all_goals rfl

theorem pushFilterStep_pres (router : Router) (σ : ColStore)
    (rightTbs : List (String × TableInfo)) (st : JoinData × PlanNode × PlanNode)
    (f : filterTuple) :
    (pushFilterStep router σ rightTbs st f).1.1.IsLeftJoin = st.1.IsLeftJoin ∧
    (st.1.HasRightFilter = true →
      (pushFilterStep router σ rightTbs st f).1.1.HasRightFilter = true) := by
  obtain ⟨d, l, r⟩ := st
  show (pushFilterStep router σ rightTbs (d, l, r) f).1.1.IsLeftJoin = d.IsLeftJoin ∧
    (d.HasRightFilter = true →
      (pushFilterStep router σ rightTbs (d, l, r) f).1.1.HasRightFilter = true)
  unfold pushFilterStep
  cases hie : f.referTables.isEmpty with
  | true => simp [hie]
  | false =>
    simp only [hie, Bool.false_eq_true, if_false]
    rcases hcore : pushFilterCore router σ d l r f with ⟨⟨d2, l2, r2⟩, e⟩
    have hpres := pushFilterCore_pres router σ d l r f
    rw [hcore] at hpres
    simp only at hpres
    cases hnc : (if d.IsLeftJoin then checkIsWithNull f rightTbs else none) with
    | some nf => simp [hnc]
    | none =>
      simp only [hnc, hcore]
      cases e with
      | some e0 => simp [hpres.1, hpres.2.1]
      | none =>
        simp only
        split
        · simp [hpres.1]
        · simp [hpres.1, hpres.2.1]

theorem pushFilterStep_setsFlag (router : Router) (σ : ColStore)
    (rightTbs : List (String × TableInfo)) (st : JoinData × PlanNode × PlanNode)
    (f : filterTuple)
    (hlj : st.1.IsLeftJoin = true)
    (hne : f.referTables.isEmpty = false)
    (hnul : checkIsWithNull f rightTbs = none)
    (hmem : f.referTables.any (fun tb => (lookupTI rightTbs tb).isSome) = true)
    (hok : (pushFilterStep router σ rightTbs st f).2 = none) :
    (pushFilterStep router σ rightTbs st f).1.1.HasRightFilter = true := by
  obtain ⟨d, l, r⟩ := st
  have hlj' : d.IsLeftJoin = true := hlj
  unfold pushFilterStep at hok ⊢
  simp only [hne, Bool.false_eq_true, if_false, hlj', if_true, hnul] at hok ⊢
  rcases hcore : pushFilterCore router σ d l r f with ⟨⟨d2, l2, r2⟩, e⟩
  have hpres := pushFilterCore_pres router σ d l r f
  rw [hcore] at hpres
  simp only at hpres
  cases e with
  | some e0 => rw [hcore] at hok; exact absurd hok (by simp)
  | none =>
    simp only [hcore]
    split
    · rfl
    · rename_i hcond
      -- the guard is `d2.IsLeftJoin && !d2.HasRightFilter && any ...`; the
      -- first and third conjuncts hold, so the flag was already set
      simp only [hpres.1, hlj', hmem, Bool.true_and, Bool.and_true] at hcond
      simpa using hcond

theorem pushFilterGo_pres (router : Router) (σ : ColStore)
    (rightTbs : List (String × TableInfo)) :
    ∀ (fs : List filterTuple) (st : JoinData × PlanNode × PlanNode),
      (pushFilterGo router σ rightTbs st fs).1.1.IsLeftJoin = st.1.IsLeftJoin ∧
      (st.1.HasRightFilter = true →
        (pushFilterGo router σ rightTbs st fs).1.1.HasRightFilter = true) := by
  intro fs
  induction fs with
  | nil => intro st; exact ⟨rfl, fun h => h⟩
  | cons f fs ih =>
    intro st
    rw [pushFilterGo]
    rcases hstep : pushFilterStep router σ rightTbs st f with ⟨st1, e⟩
    have hp := pushFilterStep_pres router σ rightTbs st f
    rw [hstep] at hp
    simp only at hp
    cases e with
    | some e0 => exact ⟨hp.1, hp.2⟩
    | none =>
      refine ⟨?_, ?_⟩
      · rw [(ih st1).1, hp.1]
      · intro h
        exact (ih st1).2 (hp.2 h)

theorem pushFilterGo_sets_flag (router : Router) (σ : ColStore)
    (rightTbs : List (String × TableInfo)) :
    ∀ (fs : List filterTuple) (st st' : JoinData × PlanNode × PlanNode),
      pushFilterGo router σ rightTbs st fs = (st', none) →
      st.1.IsLeftJoin = true →
      (∃ f ∈ fs, f.referTables.isEmpty = false ∧
          checkIsWithNull f rightTbs = none ∧
          f.referTables.any (fun tb => (lookupTI rightTbs tb).isSome) = true) →
      st'.1.HasRightFilter = true := by
  intro fs
  induction fs with
  | nil => intro st st' _ _ hex; simp at hex
  | cons g gs ih =>
    intro st st' h hlj hex
    rw [pushFilterGo] at h
    rcases hstep : pushFilterStep router σ rightTbs st g with ⟨st1, e⟩
    have hp := pushFilterStep_pres router σ rightTbs st g
    rw [hstep] at hp
    simp only at hp
    cases e with
    | some e0 => rw [hstep] at h; simp at h
    | none =>
      rw [hstep] at h
      simp only at h
      rcases hex with ⟨f, hf, hfe, hfn, hfa⟩
      rcases List.mem_cons.mp hf with rfl | hf
      · -- the distinguished filter is processed first and sets the flag
        have hset : st1.1.HasRightFilter = true := by
          have := pushFilterStep_setsFlag router σ rightTbs st f hlj hfe hfn hfa
            (by rw [hstep])
          rwa [hstep] at this
        have hrest := pushFilterGo_pres router σ rightTbs gs st1
        rw [h] at hrest
        exact hrest.2 hset
      · exact ih st1 st' h (hp.1.trans hlj) ⟨f, hf, hfe, hfn, hfa⟩

/-- C8, amended: after `pushFilter` succeeds on a left join,
`HasRightFilter` is set whenever some filter in the list that survives the
no-table and `rightNull` diversions references a right-side table (a
filter recognized by `checkIsWithNull` is diverted to `rightNull` by a
`continue` before the flag check, so it does not set the flag). -/
theorem C8_pushFilter_HasRightFilter (router : Router) (σ : ColStore)
    (d : JoinData) (l r : PlanNode) (filters : List filterTuple)
    (st' : JoinData × PlanNode × PlanNode)
    (h : pushFilter router σ d l r filters = (st', none))
    (hlj : d.IsLeftJoin = true)
    (hex : ∃ f ∈ filters, f.referTables.isEmpty = false ∧
        checkIsWithNull f (referredTablesOf r) = none ∧
        f.referTables.any
          (fun tb => (lookupTI (referredTablesOf r) tb).isSome) = true) :
    st'.1.HasRightFilter = true :=
  pushFilterGo_sets_flag router σ (referredTablesOf r) filters (d, l, r) st' h hlj hex

/-- Concrete fixtures used by witnesses and counterexamples. -/
def ti1 : TableInfo := ⟨"db", "t1", "a"⟩

def ti2 : TableInfo := ⟨"db", "t2", "a"⟩

def reft12 : List (String × TableInfo) := [("t1", ti1), ("t2", ti2)]

def lm0 : MergeData := MergeData0 [("t1", ti1)]

def rm0 : MergeData := MergeData0 [("t2", ti2)]

def router0 : Router := fun _ _ _ => (0, none)

def routerBoom : Router := fun _ _ _ => (7, some "boom")

def d8 : JoinData := { JoinData0 reft12 with IsLeftJoin := true }

def f8 : filterTuple := ⟨.isNull (.ncol "t2" "b"), ["t2"], none, none⟩

/-- Witness for the amended C8 at a concrete left join: a plain right-side
filter `t2.b > 2` does set `HasRightFilter`. -/
theorem C8_pushFilter_HasRightFilter_witness :
    (pushFilter router0 [] d8 (.merge lm0) (.merge rm0)
        [⟨.cmp ">" (.ncol "t2" "b") (.lit 2), ["t2"], none, none⟩]).1.1.HasRightFilter
      = true :=
  C8_pushFilter_HasRightFilter router0 [] d8 (.merge lm0) (.merge rm0) _ _
    rfl rfl ⟨⟨.cmp ">" (.ncol "t2" "b") (.lit 2), ["t2"], none, none⟩,
      by decide, by decide, by decide, by decide⟩

/-- Counterexample to C8 as stated: on a left join, an `IS NULL` filter on
the right table is diverted to `rightNull` by the `continue` at
join_node.go line 159, so `HasRightFilter` stays `false` although the
filter references a right-side table. -/
theorem C8_counterexample :
    d8.IsLeftJoin = true ∧
    f8.referTables.any
      (fun tb => (lookupTI (referredTablesOf (.merge rm0)) tb).isSome) = true ∧
    (pushFilter router0 [] d8 (.merge lm0) (.merge rm0) [f8]).2 = none ∧
    (pushFilter router0 [] d8 (.merge lm0) (.merge rm0) [f8]).1.1.HasRightFilter
      = false := by
  refine ⟨rfl, by decide, by decide, by decide⟩

theorem pushSelectExprPN_top (σ : ColStore) (f : selectTuple) (t : PlanNode) :
    ((pushSelectExprPN σ f t).2.2 = none →
      fieldsOf (pushSelectExprPN σ f t).2.1 = fieldsOf t ++ [f] ∧
      (pushSelectExprPN σ f t).1 = ((fieldsOf t).length : Int)) ∧
    ((pushSelectExprPN σ f t).2.2 ≠ none →
      fieldsOf (pushSelectExprPN σ f t).2.1 = fieldsOf t) := by
  cases t with
  | merge m =>
    constructor
    · intro _
      simp [pushSelectExprPN, MergeData.pushSelectExpr, fieldsOf]
    · intro h
      exact absurd rfl h
  | join d l r =>
    unfold pushSelectExprPN
    cases hl : checkTbInNode f.referTables (referredTablesOf l) with
    | true =>
      simp only [hl, if_true]
      rcases hres : pushSelectExprPN σ f l with ⟨i, l1, e⟩
      cases e with
      | none =>
        exact ⟨fun _ => by simp [fieldsOf], fun h => absurd rfl h⟩
      | some e0 =>
        exact ⟨fun h => absurd h (by simp), fun _ => by simp [fieldsOf]⟩
    | false =>
      simp only [hl, Bool.false_eq_true, if_false]
      cases hr : checkTbInNode f.referTables (referredTablesOf r) with
      | true =>
        simp only [hr, if_true]
        rcases hres : pushSelectExprPN σ f r with ⟨i, r1, e⟩
        cases e with
        | none =>
          exact ⟨fun _ => by simp [fieldsOf], fun h => absurd rfl h⟩
        | some e0 =>
          exact ⟨fun h => absurd h (by simp), fun _ => by simp [fieldsOf]⟩
      | false =>
        simp only [hr, Bool.false_eq_true, if_false]
        exact ⟨fun h => absurd h (by simp), fun _ => by simp [fieldsOf]⟩

theorem checkIsWithNull_inv (f : filterTuple)
    (rightTbs : List (String × TableInfo)) (nf : nullExpr)
    (h : checkIsWithNull f rightTbs = some nf) :
    (∃ x, nf.expr = .isNull x) ∧ nf.referTables = f.referTables := by
  unfold checkIsWithNull at h
  cases he : f.expr with
  | isNull x =>
    rw [he] at h
    simp only at h
    split at h
    · injection h with h2
      subst h2
      exact ⟨⟨x, rfl⟩, rfl⟩
    · exact absurd h (by simp)
  | col c => rw [he] at h; simp at h
  | ncol a b => rw [he] at h; simp at h
  | lit v => rw [he] at h; simp at h
  | cmp o a b => rw [he] at h; simp at h
  | conj a b => rw [he] at h; simp at h

/-- C4: on a left join, a filter that `checkIsWithNull` recognizes as an
IS NULL style test on the right side is appended to `rightNull` by
`pushFilter` with the children untouched (so nothing is attached to the
right child), and `pushNullExprs` later projects that very expression on
the right child, recording the resulting right-side field index in
`RightTmpCols`. -/
theorem C4_leftjoin_rightNull (router : Router) (σ : ColStore) (d : JoinData)
    (l r : PlanNode) (f : filterTuple) (nf : nullExpr)
    (hlj : d.IsLeftJoin = true)
    (hne : f.referTables.isEmpty = false)
    (hnull : checkIsWithNull f (referredTablesOf r) = some nf) :
    (pushFilter router σ d l r [f] =
      (({ d with rightNull := d.rightNull ++ [nf] }, l, r), none)) ∧
    (∀ (d' : JoinData) (r' : PlanNode) (idx : Nat),
      (pushSelectExprPN σ ⟨nf.expr, "tmpo_" ++ toString idx, nf.referTables⟩ r').2.2
          = none →
      pushNullExprsGo σ (d', r', idx) [nf] =
        (({ d' with RightTmpCols := d'.RightTmpCols ++ [((fieldsOf r').length : Int)] },
          (pushSelectExprPN σ ⟨nf.expr, "tmpo_" ++ toString idx, nf.referTables⟩ r').2.1,
          idx + 1), none) ∧
      fieldsOf (pushSelectExprPN σ
            ⟨nf.expr, "tmpo_" ++ toString idx, nf.referTables⟩ r').2.1 =
        fieldsOf r' ++ [⟨nf.expr, "tmpo_" ++ toString idx, nf.referTables⟩]) := by
  obtain ⟨e0, ts⟩ := nf
  obtain ⟨⟨x, hx⟩, _⟩ := checkIsWithNull_inv f (referredTablesOf r) ⟨e0, ts⟩ hnull
  simp only at hx
  subst hx
  constructor
  · unfold pushFilter pushFilterGo pushFilterStep
    simp only [hne, Bool.false_eq_true, if_false, hlj, if_true, hnull]
    rw [pushFilterGo]
  · intro d' r' idx hsucc
    simp only at hsucc ⊢
    rcases hres : pushSelectExprPN σ ⟨.isNull x, "tmpo_" ++ toString idx, ts⟩ r'
      with ⟨i, r1, e⟩
    have htop := pushSelectExprPN_top σ ⟨.isNull x, "tmpo_" ++ toString idx, ts⟩ r'
    rw [hres] at htop hsucc
    simp only at htop hsucc
    subst hsucc
    obtain ⟨hfields, hidx⟩ := htop.1 rfl
    refine ⟨?_, hfields⟩
    unfold pushNullExprsGo pushOtherFilterF
    simp only [hres, hidx]
    rfl

/-- Witness for C4 at a concrete left join with filter
`t2.b IS NULL`. -/
theorem C4_leftjoin_rightNull_witness :
    (pushFilter router0 [] d8 (.merge lm0) (.merge rm0) [f8] =
      (({ d8 with rightNull := d8.rightNull ++ [⟨f8.expr, f8.referTables⟩] },
        .merge lm0, .merge rm0), none)) ∧
    (pushNullExprsGo [] (d8, .merge rm0, 0) [⟨f8.expr, f8.referTables⟩] =
      (({ d8 with RightTmpCols := d8.RightTmpCols ++
            [((fieldsOf (.merge rm0)).length : Int)] },
        (pushSelectExprPN [] ⟨f8.expr, "tmpo_" ++ toString 0, f8.referTables⟩
            (.merge rm0)).2.1, 0 + 1), none)) ∧
    fieldsOf (pushSelectExprPN [] ⟨f8.expr, "tmpo_" ++ toString 0, f8.referTables⟩
        (.merge rm0)).2.1 =
      fieldsOf (.merge rm0) ++ [⟨f8.expr, "tmpo_" ++ toString 0, f8.referTables⟩] := by
  have h := C4_leftjoin_rightNull router0 [] d8 (.merge lm0) (.merge rm0) f8
    ⟨f8.expr, f8.referTables⟩ rfl (by decide) (by decide)
  exact ⟨h.1, (h.2 d8 (.merge rm0) 0 (by decide)).1, (h.2 d8 (.merge rm0) 0 (by decide)).2⟩

theorem calcRoute_no_err (router : Router) (σ : ColStore) :
    ∀ (n : Nat) (t : PlanNode), psize t ≤ n → (calcRoute router σ t).2 = none := by
  intro n
  induction n with
  | zero =>
    intro t ht
    cases t <;> simp [psize] at ht
  | succ n ih =>
    intro t ht
    cases t with
    | merge m => simp [calcRoute]
    | join d l r =>
      rw [calcRoute]
      split
      · simp
      · rename_i d1 l1 r1 heq
        have hsz := psize_calcRoutePhase1 router σ (.join d l r)
        rw [heq] at hsz
        simp only [psize] at hsz ht
        have hl := ih l1 (by omega)
        have hr := ih r1 (by omega)
        split
        · rename_i l2 e heql
          rw [heql] at hl
          simp at hl
        · rename_i l2 heql
          split
          · rename_i r2 e heqr
            rw [heqr] at hr
            simp at hr
          · rename_i r2 heqr
            split
            · split <;> simp
            · simp

/-- Concrete fixtures for the routing claims. -/
def σ7 : ColStore := [("t1", "a"), ("t2", "a")]

def jt7 : joinTuple := ⟨.cmp "=" (.col 0) (.col 1), ["t1", "t2"], 0, 1⟩

def f7 : filterTuple := ⟨.cmp "=" (.col 0) (.lit 5), ["t1"], some 0, some 5⟩

def lm7 : MergeData := { MergeData0 [("t1", ti1)] with backend := "b1", shardCount := 1 }

def rm7 : MergeData := { MergeData0 [("t2", ti2)] with backend := "b2", shardCount := 1 }

def d7 : JoinData := { JoinData0 reft12 with joinOn := [jt7], tableFilter := [f7] }

def t7 : PlanNode := .join d7 (.merge lm7) (.merge rm7)

/-- C7, amended: `pushFilter` aborts on a Route-Oracle error and returns
it unmodified, but `buildKeyFilter` inside `calcRoute` discards Route
Oracle errors (`tbInfo.parent.index, _ = j.router.GetIndex(...)`), so
`calcRoute` itself never returns an error and planning continues. -/
theorem C7_router_error_propagation :
    (∀ (router : Router) (σ : ColStore) (d : JoinData) (l r : PlanNode)
        (f : filterTuple) (tb : String) (c : Nat) (v : Val) (i0 : Int) (s : String),
      f.referTables = [tb] → f.col = some c → f.val = some v →
      (if d.IsLeftJoin then checkIsWithNull f (referredTablesOf r) else none) = none →
      parentIndexLR l r tb = -1 →
      ((getTI d.referredTables tb).shardKey != "") = true →
      nameMatch σ c tb (getTI d.referredTables tb).shardKey = true →
      router (getTI d.referredTables tb).database (getTI d.referredTables tb).tableName v
        = (i0, some s) →
      (pushFilter router σ d l r [f]).2 = some (.routerErr s) ∧
      (PlanErr.routerErr s).render = s) ∧
    (∀ (router : Router) (σ : ColStore) (t : PlanNode),
      (calcRoute router σ t).2 = none) := by
  constructor
  · intro router σ d l r f tb c v i0 s hts hc hv hnul hpi hsk hnm hrt
    refine ⟨?_, rfl⟩
    unfold pushFilter pushFilterGo pushFilterStep pushFilterCore
    have hie : f.referTables.isEmpty = false := by rw [hts]; rfl
    have hlen : (f.referTables.length == 1) = true := by rw [hts]; rfl
    have hhd : f.referTables.headD "" = tb := by rw [hts]; rfl
    simp only [hie, Bool.false_eq_true, if_false, hnul, hlen, if_true, hhd, hc, hv,
      hpi, hsk, hnm, hrt]
    simp
  · intro router σ t
    exact calcRoute_no_err router σ (psize t) t le_rfl

/-- Witness for the amended C7: with an oracle that always fails,
`pushFilter` returns the oracle error `boom` unmodified, and `calcRoute`
still reports no error. -/
theorem C7_router_error_propagation_witness :
    ((pushFilter routerBoom σ7 (JoinData0 reft12) (.merge lm7) (.merge rm7) [f7]).2 =
      some (.routerErr "boom") ∧
     (PlanErr.routerErr "boom").render = "boom") ∧
    (calcRoute routerBoom σ7 (.merge lm7)).2 = none :=
  ⟨C7_router_error_propagation.1 routerBoom σ7 (JoinData0 reft12) (.merge lm7)
      (.merge rm7) f7 "t1" 0 5 7 "boom" rfl rfl rfl rfl (by decide) (by decide)
      (by decide) rfl,
   C7_router_error_propagation.2 routerBoom σ7 (.merge lm7)⟩

/-- Counterexample to C7 as stated: with an oracle that errors on every
call, `calcRoute` still succeeds, and the right Merge was routed to the
index value `7` the failing oracle returned alongside its error —
`buildKeyFilter` called `GetIndex` and discarded the error
(join_node.go lines 443-445). -/
theorem C7_counterexample :
    (∀ db tb v, (routerBoom db tb v).2 = some "boom") ∧
    (calcRoute routerBoom σ7 t7).2 = none ∧
    mergeIndexOf (calcRoute routerBoom σ7 t7).1 "t2" = some 7 := by
  have key : calcRoute routerBoom σ7 t7 =
      (.join { d7 with keyFilters := [(0, [f7])] } (.merge lm7)
        (.merge { rm7 with index := 7 }), none) := by
    have hp : calcRoutePhase1 routerBoom σ7 t7 =
        .join { d7 with keyFilters := [(0, [f7])] } (.merge lm7)
          (.merge { rm7 with index := 7 }) := by decide
    rw [show t7 = PlanNode.join d7 (.merge lm7) (.merge rm7) from rfl] at hp ⊢
    rw [calcRoute]
    split
    · rename_i m heq
      rw [hp] at heq
      exact absurd heq (by simp)
    · rename_i d1 l1 r1 heq
      rw [hp] at heq
      injection heq with h1 h2 h3
      subst h1
      subst h2
      subst h3
      rw [calcRoute, calcRoute]
      decide
  refine ⟨fun _ _ _ => rfl, by rw [key], by rw [key]; decide⟩

theorem buildKeyFilterPN_top (router : Router) (σ : ColStore) (f : filterTuple)
    (d : JoinData) (l r : PlanNode) (b : Bool) :
    ∃ d' l' r', (buildKeyFilterPN router σ f (.join d l r) b).1 = .join d' l' r' ∧
      d'.otherFilter = d.otherFilter ∧ d'.noTableFilter = d.noTableFilter ∧
      d'.joinOn = d.joinOn ∧ d'.joinExpr = d.joinExpr ∧ d'.hasParen = d.hasParen := by
  unfold buildKeyFilterPN
  repeat' first | split | simp only []
  all_goals exact ⟨_, _, _, rfl, rfl, rfl, rfl, rfl, rfl⟩

theorem updateMergeOf_join (tb : String) (g : MergeData → MergeData)
    (d : JoinData) (l r : PlanNode) :
    ∃ l' r', updateMergeOf tb g (.join d l r) = .join d l' r' := by
  unfold updateMergeOf
  split
  · exact ⟨_, _, rfl⟩
  · exact ⟨_, _, rfl⟩

theorem phase1Step_top (router : Router) (σ : ColStore) (f : filterTuple)
    (d : JoinData) (l r : PlanNode) :
    ∃ d' l' r', phase1Step router σ f (.join d l r) = .join d' l' r' ∧
      d'.otherFilter = d.otherFilter ∧ d'.noTableFilter = d.noTableFilter ∧
      d'.joinOn = d.joinOn ∧ d'.joinExpr = d.joinExpr ∧ d'.hasParen = d.hasParen := by
  obtain ⟨d', l', r', hb, h1, h2, h3, h4, h5⟩ := buildKeyFilterPN_top router σ f d l r false
  show ∃ d' l' r',
    (if (buildKeyFilterPN router σ f (.join d l r) false).2 = true then
      (buildKeyFilterPN router σ f (.join d l r) false).1
    else updateMergeOf (f.referTables.headD "") (fun m => m.setWhereFilter f.expr)
      (buildKeyFilterPN router σ f (.join d l r) false).1) = .join d' l' r' ∧ _
  rw [hb]
  split
  · exact ⟨d', l', r', rfl, h1, h2, h3, h4, h5⟩
  · obtain ⟨l2, r2, hu⟩ :=
      updateMergeOf_join (f.referTables.headD "") (fun m => m.setWhereFilter f.expr) d' l' r'
    exact ⟨d', l2, r2, hu, h1, h2, h3, h4, h5⟩

theorem calcRoutePhase1_pres (router : Router) (σ : ColStore) (d : JoinData)
    (l r : PlanNode) (d1 : JoinData) (l1 r1 : PlanNode)
    (h : calcRoutePhase1 router σ (.join d l r) = .join d1 l1 r1) :
    d1.otherFilter = d.otherFilter ∧ d1.noTableFilter = d.noTableFilter ∧
      d1.joinOn = d.joinOn ∧ d1.joinExpr = d.joinExpr := by
  have main : ∀ (fs : List filterTuple) (dx : JoinData) (lx rx : PlanNode)
      (dy : JoinData) (ly ry : PlanNode),
      fs.foldl (fun acc f => phase1Step router σ f acc) (.join dx lx rx) = .join dy ly ry →
      dy.otherFilter = dx.otherFilter ∧ dy.noTableFilter = dx.noTableFilter ∧
        dy.joinOn = dx.joinOn ∧ dy.joinExpr = dx.joinExpr := by
    intro fs
    induction fs with
    | nil =>
      intro dx lx rx dy ly ry hfold
      simp only [List.foldl_nil] at hfold
      injection hfold with e1 e2 e3
      subst e1
      exact ⟨rfl, rfl, rfl, rfl⟩
    | cons f fs ih =>
      intro dx lx rx dy ly ry hfold
      simp only [List.foldl_cons] at hfold
      obtain ⟨d', l', r', hstep, h1, h2, h3, h4, _⟩ := phase1Step_top router σ f dx lx rx
      rw [hstep] at hfold
      obtain ⟨g1, g2, g3, g4⟩ := ih d' l' r' dy ly ry hfold
      exact ⟨g1.trans h1, g2.trans h2, g3.trans h3, g4.trans h4⟩
  have h' : d.tableFilter.foldl (fun acc f => phase1Step router σ f acc) (.join d l r)
      = .join d1 l1 r1 := h
  exact main d.tableFilter d l r d1 l1 r1 h'

theorem setWhere_foldl_filters (es : List Expr) (m : MergeData) :
    (es.foldl (fun m e => m.setWhereFilter e) m).filters = m.filters ++ es := by
  induction es generalizing m with
  | nil => simp
  | cons e es ih =>
    simp only [List.foldl_cons]
    rw [ih]
    simp [MergeData.setWhereFilter]

theorem setWhereKF_foldl_filters (fs : List filterTuple) (m : MergeData) :
    (fs.foldl (fun m f => m.setWhereFilter f.expr) m).filters =
      m.filters ++ fs.map (·.expr) := by
  induction fs generalizing m with
  | nil => simp
  | cons f fs ih =>
    simp only [List.foldl_cons]
    rw [ih]
    simp [MergeData.setWhereFilter]

theorem setWhereJoin_foldl_filters (js : List joinTuple) (m : MergeData) :
    (js.foldl (fun m jt => m.setWhereFilter jt.expr) m).filters =
      m.filters ++ js.map (·.expr) := by
  induction js generalizing m with
  | nil => simp
  | cons j js ih =>
    simp only [List.foldl_cons]
    rw [ih]
    simp [MergeData.setWhereFilter]

theorem kfFold_filters_eq (kfs : List (Nat × List filterTuple)) (m : MergeData) :
    (kfs.foldl (fun m p => p.2.foldl (fun m f => m.setWhereFilter f.expr) m) m).filters =
      m.filters ++ (kfs.map (fun p => p.2.map (·.expr))).flatten := by
  induction kfs generalizing m with
  | nil => simp
  | cons q qs ih =>
    simp only [List.foldl_cons]
    rw [ih, setWhereKF_foldl_filters]
    simp

theorem collapseAttach_filters (d1 : JoinData) (m0 : MergeData) :
    (collapseAttach d1 m0).filters =
      (((m0.filters ++ d1.otherFilter) ++
        (d1.keyFilters.map (fun p => p.2.map (·.expr))).flatten) ++ d1.noTableFilter) ++
      (if d1.joinExpr.isNone && decide (0 < d1.joinOn.length) then
        d1.joinOn.map (·.expr) else []) := by
  unfold collapseAttach
  split
  · rw [setWhereJoin_foldl_filters, setWhere_foldl_filters, kfFold_filters_eq,
      setWhere_foldl_filters]
  · rw [setWhere_foldl_filters, kfFold_filters_eq, setWhere_foldl_filters]
    simp

theorem collapseAttach_mem (d1 : JoinData) (m0 : MergeData) :
    (∀ e ∈ d1.otherFilter, e ∈ (collapseAttach d1 m0).filters) ∧
    (∀ p ∈ d1.keyFilters, ∀ f0 ∈ p.2, f0.expr ∈ (collapseAttach d1 m0).filters) ∧
    (∀ e ∈ d1.noTableFilter, e ∈ (collapseAttach d1 m0).filters) ∧
    (d1.joinExpr = none → ∀ jt ∈ d1.joinOn, jt.expr ∈ (collapseAttach d1 m0).filters) := by
  refine ⟨?_, ?_, ?_, ?_⟩
  · intro e he
    rw [collapseAttach_filters]
    simp [he]
  · intro p hp f0 hf0
    rw [collapseAttach_filters]
    have hm : f0.expr ∈ (d1.keyFilters.map (fun p => p.2.map (·.expr))).flatten :=
      List.mem_flatten.mpr ⟨p.2.map (·.expr), List.mem_map_of_mem _ hp,
        List.mem_map_of_mem _ hf0⟩
    simp [hm]
  · intro e he
    rw [collapseAttach_filters]
    simp [he]
  · intro hje jt hjt
    rw [collapseAttach_filters]
    have hc : (d1.joinExpr.isNone && decide (0 < d1.joinOn.length)) = true := by
      rw [hje]
      cases hjo : d1.joinOn with
      | nil => rw [hjo] at hjt; cases hjt
      | cons a as => simp
    rw [hc, if_pos rfl]
    exact List.mem_append_right _ (List.mem_map_of_mem _ hjt)

/-- C1: when, after routing both children, both are Merges with the same
non-empty backend (or either side's `shardCount` is zero), `calcRoute`
collapses the join into a single Merge that carries, as WHERE filters,
all `otherFilter` expressions, every filter recorded in the `keyFilters`
map, all `noTableFilter` expressions, and — for a comma join
(`joinExpr == nil`) with non-empty `joinOn` — every `joinOn` equality. -/
theorem C1_calcRoute_collapse (router : Router) (σ : ColStore) (d : JoinData)
    (l r : PlanNode) (d1 : JoinData) (l1 r1 : PlanNode) (lmn rmn : MergeData)
    (hp : calcRoutePhase1 router σ (.join d l r) = .join d1 l1 r1)
    (hl : calcRoute router σ l1 = (.merge lmn, none))
    (hr : calcRoute router σ r1 = (.merge rmn, none))
    (hc : ((lmn.backend != "" && lmn.backend == rmn.backend)
        || rmn.shardCount == 0 || lmn.shardCount == 0) = true) :
    ∃ mn, calcRoute router σ (.join d l r) = (.merge mn, none) ∧
      (∀ e ∈ d.otherFilter, e ∈ mn.filters) ∧
      (∀ p ∈ d1.keyFilters, ∀ f0 ∈ p.2, f0.expr ∈ mn.filters) ∧
      (∀ e ∈ d.noTableFilter, e ∈ mn.filters) ∧
      (d.joinExpr = none → ∀ jt ∈ d.joinOn, jt.expr ∈ mn.filters) := by
  obtain ⟨po, pn, pj, pe⟩ := calcRoutePhase1_pres router σ d l r d1 l1 r1 hp
  rw [calcRoute]
  split
  · rename_i m heq
    rw [hp] at heq
    exact absurd heq (by simp)
  · rename_i d1' l1' r1' heq
    rw [hp] at heq
    injection heq with e1 e2 e3
    subst e1
    subst e2
    subst e3
    rw [hl]
    simp only
    rw [hr]
    simp only [hc, if_true]
    refine ⟨_, rfl, ?_, ?_, ?_, ?_⟩
    · intro e he
      rw [← po] at he
      exact (collapseAttach_mem d1 _).1 e he
    · exact (collapseAttach_mem d1 _).2.1
    · intro e he
      rw [← pn] at he
      exact (collapseAttach_mem d1 _).2.2.1 e he
    · intro hje0 jt hjt
      rw [← pj] at hjt
      exact (collapseAttach_mem d1 _).2.2.2 (pe.trans hje0) jt hjt

/-- Concrete comma-join fixture for the C1 witness. -/
def dW : JoinData :=
  { JoinData0 reft12 with otherFilter := [Expr.lit 1], noTableFilter := [Expr.lit 2], joinOn := [jt7], keyFilters := [(0, [f7])] }

/-- Left Merge of the C1 witness, routed to backend `b`. -/
def lmW : MergeData := { lm0 with backend := "b", shardCount := 1 }

/-- Right Merge of the C1 witness, routed to backend `b`. -/
def rmW : MergeData := { rm0 with backend := "b", shardCount := 1 }

/-- Witness for C1: a comma join of two Merges routed to the same backend
collapses into one Merge carrying the accumulated filters as WHEREs. -/
theorem C1_calcRoute_collapse_witness :
    ∃ mn, calcRoute router0 σ7 (.join dW (.merge lmW) (.merge rmW)) = (.merge mn, none) ∧
      (∀ e ∈ dW.otherFilter, e ∈ mn.filters) ∧
      (∀ p ∈ dW.keyFilters, ∀ f0 ∈ p.2, f0.expr ∈ mn.filters) ∧
      (∀ e ∈ dW.noTableFilter, e ∈ mn.filters) ∧
      (dW.joinExpr = none → ∀ jt ∈ dW.joinOn, jt.expr ∈ mn.filters) := by
  have h := C1_calcRoute_collapse router0 σ7 dW (.merge lmW) (.merge rmW) dW
    (.merge lmW) (.merge rmW) lmW rmW rfl (by rw [calcRoute]) (by rw [calcRoute])
    (by decide)
  exact h

theorem colTable_setCol_self (σ : ColStore) (c : Nat) (t f : String)
    (h : c < σ.length) : colTable (setCol σ c t f) c = t := by
  simp [colTable, setCol, List.getD, List.getElem?_set_self, h]

theorem colField_setCol_self (σ : ColStore) (c : Nat) (t f : String)
    (h : c < σ.length) : colField (setCol σ c t f) c = f := by
  simp [colField, setCol, List.getD, List.getElem?_set_self, h]

theorem length_setCol (σ : ColStore) (c : Nat) (t f : String) :
    (setCol σ c t f).length = σ.length := by
  simp [setCol]

theorem keyFilterSide_single_col (σ : ColStore) (keys : List JoinKey) (i : Nat)
    (f : filterTuple) (c : Nat) (child : PlanNode) (hcol : f.col = some c) :
    keyFilterSide σ keys [(i, [f])] child =
      (setCol σ c (keys.getD i ⟨"", "", 0⟩).Table (keys.getD i ⟨"", "", 0⟩).Field,
       updateMergeOf (keys.getD i ⟨"", "", 0⟩).Table
         (fun m => { m with filters := m.filters ++ [f.expr] }) child) := by
  unfold keyFilterSide
  simp only [List.foldl_cons, List.foldl_nil, hcol]

theorem updateMergeOf_merge_owns (tb : String) (g : MergeData → MergeData)
    (m : MergeData) (h : (lookupTI m.referredTables tb).isSome = true) :
    updateMergeOf tb g (.merge m) = .merge (g m) := by
  unfold updateMergeOf
  simp [h]

theorem setNoTableFilterPN_merge (m : MergeData) (es : List Expr) :
    setNoTableFilterPN (.merge m) es = .merge (m.setNoTableFilter es) := rfl

/-- C2: `buildQuery` rewrites the key filter's shared column cell to the
left key's table and field and inserts the filter into the left Merge's
filter set before building (rendering) the left child, then rewrites the
same cell to the right key's table and field and inserts it into the
right Merge's filter set, so the left-built query contains
`<lt>.<lf> = K` while the right-built query contains `<rt>.<rf> = K`. -/
theorem C2_buildQuery_keyFilter (σ : ColStore) (d : JoinData) (lm rm : MergeData)
    (i : Nat) (f : filterTuple) (c : Nat) (K : Int)
    (lt lf rt rf : String) (li ri : Int)
    (hkf : d.keyFilters = [(i, [f])])
    (hcol : f.col = some c)
    (hexpr : f.expr = .cmp "=" (.col c) (.lit K))
    (hclen : c < σ.length)
    (hlk : d.LeftKeys.getD i ⟨"", "", 0⟩ = ⟨lf, lt, li⟩)
    (hrk : d.RightKeys.getD i ⟨"", "", 0⟩ = ⟨rf, rt, ri⟩)
    (hol : (lookupTI lm.referredTables lt).isSome = true)
    (hor : (lookupTI rm.referredTables rt).isSome = true) :
    ∃ σ' d' lm' rm',
      buildQueryPN σ (.join d (.merge lm) (.merge rm)) =
        (σ', .join d' (.merge lm') (.merge rm')) ∧
      f.expr ∈ lm'.filters ∧ f.expr ∈ rm'.filters ∧
      (Expr.cmp "=" (.ncol lt lf) (.lit K)) ∈ lm'.built ∧
      (Expr.cmp "=" (.ncol rt rf) (.lit K)) ∈ rm'.built := by
  have hol2 : (lookupTI (lm.setNoTableFilter d.noTableFilter).referredTables lt).isSome
      = true := hol
  have hor2 : (lookupTI (rm.setNoTableFilter d.noTableFilter).referredTables rt).isSome
      = true := hor
  rw [buildQueryPN]
  simp only [hkf, setNoTableFilterPN_merge,
    keyFilterSide_single_col σ d.LeftKeys i f c
      (.merge (lm.setNoTableFilter d.noTableFilter)) hcol,
    hlk]
  simp only [updateMergeOf_merge_owns lt
    (fun m => { m with filters := m.filters ++ [f.expr] })
    (lm.setNoTableFilter d.noTableFilter) hol2]
  rw [buildQueryPN]
  simp only [keyFilterSide_single_col (setCol σ c lt lf) d.RightKeys i f c
      (.merge (rm.setNoTableFilter d.noTableFilter)) hcol,
    hrk]
  simp only [updateMergeOf_merge_owns rt
    (fun m => { m with filters := m.filters ++ [f.expr] })
    (rm.setNoTableFilter d.noTableFilter) hor2]
  rw [buildQueryPN]
  simp only
  refine ⟨_, _, _, _, rfl, ?_, ?_, ?_, ?_⟩
  · simp [MergeData.buildQuery, MergeData.setNoTableFilter]
  · simp [MergeData.buildQuery, MergeData.setNoTableFilter]
  · have hmem : f.expr ∈
        ((lm.setNoTableFilter d.noTableFilter).filters ++ [f.expr]) := by simp
    have hmap := List.mem_map_of_mem (render (setCol σ c lt lf)) hmem
    rw [hexpr] at hmap
    simp only [render] at hmap
    rw [colTable_setCol_self σ c lt lf hclen, colField_setCol_self σ c lt lf hclen] at hmap
    simpa [MergeData.buildQuery, MergeData.setNoTableFilter, hexpr] using hmap
  · have hmem : f.expr ∈
        ((rm.setNoTableFilter d.noTableFilter).filters ++ [f.expr]) := by simp
    have hmap := List.mem_map_of_mem (render (setCol (setCol σ c lt lf) c rt rf)) hmem
    rw [hexpr] at hmap
    simp only [render] at hmap
    have hclen2 : c < (setCol σ c lt lf).length := by rw [length_setCol]; exact hclen
    rw [colTable_setCol_self _ c rt rf hclen2, colField_setCol_self _ c rt rf hclen2] at hmap
    simpa [MergeData.buildQuery, MergeData.setNoTableFilter, hexpr] using hmap

/-- Concrete join state for the C2 witness: key filter `t1.a = 5` under
join key `t1.a = t2.a`. -/
def dC2 : JoinData :=
  { JoinData0 reft12 with keyFilters := [(0, [f7])], LeftKeys := [⟨"a", "t1", 0⟩], RightKeys := [⟨"a", "t2", 0⟩] }

/-- Witness for C2: the emitted left query contains `t1.a = 5` and the
emitted right query contains `t2.a = 5`, from the one shared filter. -/
theorem C2_buildQuery_keyFilter_witness :
    ∃ σ' d' lm' rm',
      buildQueryPN σ7 (.join dC2 (.merge lm0) (.merge rm0)) =
        (σ', .join d' (.merge lm') (.merge rm')) ∧
      f7.expr ∈ lm'.filters ∧ f7.expr ∈ rm'.filters ∧
      (Expr.cmp "=" (.ncol "t1" "a") (.lit 5)) ∈ lm'.built ∧
      (Expr.cmp "=" (.ncol "t2" "a") (.lit 5)) ∈ rm'.built :=
  C2_buildQuery_keyFilter σ7 dC2 lm0 rm0 0 f7 0 5 "t1" "a" "t2" "a" 0 0
    rfl rfl rfl (by decide) rfl rfl (by decide) (by decide)

/-- The signed-index `Cols` invariant of claim C3: one entry per field,
each entry nonzero and pointing (via the `−(i+1)` / `+(i+1)` encoding) at
a valid index of the corresponding child's projection. -/
def colsOK : PlanNode → Prop
  | .merge _ => True
  | .join d l r =>
    d.Cols.length = d.fields.length ∧
    ∀ cc ∈ d.Cols,
      (∃ i : Nat, cc = -(i + 1 : Int) ∧ i < (fieldsOf l).length) ∨
      (∃ i : Nat, cc = (i + 1 : Int) ∧ i < (fieldsOf r).length)

theorem colsOK_mono (d d' : JoinData) (l r l2 r2 : PlanNode)
    (hok : colsOK (.join d l r))
    (hc : d'.Cols = d.Cols) (hf : d'.fields = d.fields)
    (hl : (fieldsOf l).length ≤ (fieldsOf l2).length)
    (hr : (fieldsOf r).length ≤ (fieldsOf r2).length) :
    colsOK (.join d' l2 r2) := by
  obtain ⟨hlen, hmem⟩ := hok
  refine ⟨by rw [hc, hf, hlen], ?_⟩
  intro cc hcc
  rw [hc] at hcc
  rcases hmem cc hcc with ⟨i, hi, hlt⟩ | ⟨i, hi, hlt⟩
  · exact Or.inl ⟨i, hi, lt_of_lt_of_le hlt hl⟩
  · exact Or.inr ⟨i, hi, lt_of_lt_of_le hlt hr⟩

theorem pushSelectExprPN_join_step (σ : ColStore) (f : selectTuple)
    (d : JoinData) (l r : PlanNode)
    (h : (pushSelectExprPN σ f (.join d l r)).2.2 = none) :
    ∃ d' l' r', (pushSelectExprPN σ f (.join d l r)).2.1 = .join d' l' r' ∧
      d'.fields = d.fields ++ [f] ∧
      ((d'.Cols = d.Cols ++ [-((fieldsOf l).length : Int) - 1] ∧
        (fieldsOf l').length = (fieldsOf l).length + 1 ∧ r' = r) ∨
       (d'.Cols = d.Cols ++ [((fieldsOf r).length : Int) + 1] ∧
        (fieldsOf r').length = (fieldsOf r).length + 1 ∧ l' = l)) := by
  rw [pushSelectExprPN] at h ⊢
  cases hl : checkTbInNode f.referTables (referredTablesOf l) with
  | true =>
    simp only [hl, if_true] at h ⊢
    rcases hres : pushSelectExprPN σ f l with ⟨i, l1, e⟩
    have htop := pushSelectExprPN_top σ f l
    rw [hres] at htop
    cases e with
    | some e0 => rw [hres] at h; simp at h
    | none =>
      obtain ⟨hfl, hidx⟩ := htop.1 rfl
      simp only at hfl hidx
      simp only [hres]
      refine ⟨_, _, _, rfl, rfl, Or.inl ⟨?_, ?_, rfl⟩⟩
      · rw [hidx]
      · rw [hfl]
        simp
  | false =>
    simp only [hl, Bool.false_eq_true, if_false] at h ⊢
    cases hr : checkTbInNode f.referTables (referredTablesOf r) with
    | true =>
      simp only [hr, if_true] at h ⊢
      rcases hres : pushSelectExprPN σ f r with ⟨i, r1, e⟩
      have htop := pushSelectExprPN_top σ f r
      rw [hres] at htop
      cases e with
      | some e0 => rw [hres] at h; simp at h
      | none =>
        obtain ⟨hfr, hidx⟩ := htop.1 rfl
        simp only at hfr hidx
        simp only [hres]
        refine ⟨_, _, _, rfl, rfl, Or.inr ⟨?_, ?_, rfl⟩⟩
        · rw [hidx]
        · rw [hfr]
          simp
    | false =>
      simp only [hr, Bool.false_eq_true, if_false] at h
      simp at h

theorem colsOK_push_step (σ : ColStore) (f : selectTuple)
    (d : JoinData) (l r : PlanNode)
    (hok : colsOK (.join d l r))
    (h : (pushSelectExprPN σ f (.join d l r)).2.2 = none) :
    ∃ d' l' r', (pushSelectExprPN σ f (.join d l r)).2.1 = .join d' l' r' ∧
      d'.fields = d.fields ++ [f] ∧ colsOK (.join d' l' r') := by
  obtain ⟨d', l', r', heq, hfields, hside⟩ := pushSelectExprPN_join_step σ f d l r h
  obtain ⟨hlen, hmem⟩ := hok
  refine ⟨d', l', r', heq, hfields, ?_, ?_⟩
  · rcases hside with ⟨hcols, _, _⟩ | ⟨hcols, _, _⟩ <;>
      simp [hcols, hfields, hlen]
  · intro cc hcc
    rcases hside with ⟨hcols, hlf, hrr⟩ | ⟨hcols, hrf, hlr⟩
    · rw [hcols] at hcc
      rcases List.mem_append.mp hcc with hold | hnew
      · rcases hmem cc hold with ⟨i, hi, hlt⟩ | ⟨i, hi, hlt⟩
        · exact Or.inl ⟨i, hi, by omega⟩
        · exact Or.inr ⟨i, hi, by rw [hrr]; exact hlt⟩
      · rcases List.mem_singleton.mp hnew with rfl
        exact Or.inl ⟨(fieldsOf l).length, by push_cast; ring, by omega⟩
    · rw [hcols] at hcc
      rcases List.mem_append.mp hcc with hold | hnew
      · rcases hmem cc hold with ⟨i, hi, hlt⟩ | ⟨i, hi, hlt⟩
        · exact Or.inl ⟨i, hi, by rw [hlr]; exact hlt⟩
        · exact Or.inr ⟨i, hi, by omega⟩
      · rcases List.mem_singleton.mp hnew with rfl
        exact Or.inr ⟨(fieldsOf r).length, by push_cast; ring, by omega⟩

theorem pushSelectExprsLoop_join (σ : ColStore) :
    ∀ (fs : List selectTuple) (d : JoinData) (l r : PlanNode),
      colsOK (.join d l r) →
      (pushSelectExprsLoop σ (.join d l r) fs).2 = none →
      ∃ d' l' r', (pushSelectExprsLoop σ (.join d l r) fs).1 = .join d' l' r' ∧
        d'.fields = d.fields ++ fs ∧ colsOK (.join d' l' r') := by
  intro fs
  induction fs with
  | nil =>
    intro d l r hok _
    exact ⟨d, l, r, rfl, by simp, hok⟩
  | cons f fs ih =>
    intro d l r hok h
    rw [pushSelectExprsLoop] at h ⊢
    rcases hres : pushSelectExprPN σ f (.join d l r) with ⟨i, t1, e⟩
    cases e with
    | some e0 => simp [hres] at h
    | none =>
      have hstep := colsOK_push_step σ f d l r hok (by rw [hres])
      rw [hres] at hstep
      simp only at hstep
      obtain ⟨d1, l1, r1, ht1, hf1, hok1⟩ := hstep
      simp only [hres] at h ⊢
      rw [ht1] at h ⊢
      obtain ⟨d', l', r', hfin, hffin, hokfin⟩ := ih d1 l1 r1 hok1 h
      exact ⟨d', l', r', hfin, by rw [hffin, hf1]; simp, hokfin⟩

theorem buildOrderByF_len (σ : ColStore) (c : Nat) (node : PlanNode) :
    (fieldsOf node).length ≤ (fieldsOf (buildOrderByF σ c node).2).length := by
  unfold buildOrderByF
  cases hidx : findFieldIndex (colTable σ c) (colField σ c) (fieldsOf node) 0 == -1 with
  | false =>
    simp only [hidx, Bool.false_eq_true, if_false]
    cases node <;> simp [fieldsOf]
  | true =>
    simp only [hidx, if_true]
    rcases hres : pushSelectExprPN σ
        ⟨.col c, colField σ c, [colTable σ c]⟩ node with ⟨i, n1, e⟩
    have htop := pushSelectExprPN_top σ ⟨.col c, colField σ c, [colTable σ c]⟩ node
    rw [hres] at htop
    simp only at htop
    cases e with
    | none =>
      have := (htop.1 rfl).1
      cases n1 <;> simp_all [fieldsOf] <;> omega
    | some e0 =>
      have := htop.2 (by simp)
      cases n1 <;> simp_all [fieldsOf]

theorem handleJoinOnStep_top (σ : ColStore) (lok rok : Bool)
    (acc : JoinData × PlanNode × PlanNode) (jt : joinTuple) :
    (handleJoinOnStep σ lok rok acc jt).1.Cols = acc.1.Cols ∧
    (handleJoinOnStep σ lok rok acc jt).1.fields = acc.1.fields ∧
    (fieldsOf acc.2.1).length ≤ (fieldsOf (handleJoinOnStep σ lok rok acc jt).2.1).length ∧
    (fieldsOf acc.2.2).length ≤ (fieldsOf (handleJoinOnStep σ lok rok acc jt).2.2).length := by
  obtain ⟨dc, lc, rc⟩ := acc
  unfold handleJoinOnStep
  refine ⟨?_, ?_, ?_, ?_⟩
  · repeat' first | split | simp only []
    all_goals rfl
  · repeat' first | split | simp only []
    all_goals rfl
  · exact buildOrderByF_len σ jt.left lc
  · exact buildOrderByF_len σ jt.right rc

theorem handleJoinOnFold_top (σ : ColStore) (lok rok : Bool) :
    ∀ (js : List joinTuple) (acc : JoinData × PlanNode × PlanNode),
      (js.foldl (handleJoinOnStep σ lok rok) acc).1.Cols = acc.1.Cols ∧
      (js.foldl (handleJoinOnStep σ lok rok) acc).1.fields = acc.1.fields ∧
      (fieldsOf acc.2.1).length ≤
        (fieldsOf (js.foldl (handleJoinOnStep σ lok rok) acc).2.1).length ∧
      (fieldsOf acc.2.2).length ≤
        (fieldsOf (js.foldl (handleJoinOnStep σ lok rok) acc).2.2).length := by
  intro js
  induction js with
  | nil => intro acc; exact ⟨rfl, rfl, le_refl _, le_refl _⟩
  | cons j js ih =>
    intro acc
    simp only [List.foldl_cons]
    obtain ⟨h1, h2, h3, h4⟩ := handleJoinOnStep_top σ lok rok acc j
    obtain ⟨g1, g2, g3, g4⟩ := ih (handleJoinOnStep σ lok rok acc j)
    exact ⟨g1.trans h1, g2.trans h2, h3.trans g3, h4.trans g4⟩

theorem handleJoinOnPN_top (σ : ColStore) :
    ∀ t, fieldsOf (handleJoinOnPN σ t) = fieldsOf t ∧
      (∀ d l r, t = .join d l r →
        ∃ d' l' r', handleJoinOnPN σ t = .join d' l' r' ∧
          d'.Cols = d.Cols ∧ d'.fields = d.fields ∧
          (fieldsOf l).length ≤ (fieldsOf l').length ∧
          (fieldsOf r).length ≤ (fieldsOf r').length) := by
  intro t
  induction t with
  | merge m => exact ⟨rfl, fun d l r h => by cases h⟩
  | join d l r ihl ihr =>
    have hl0 : fieldsOf (handleJoinOnPN σ l) = fieldsOf l := ihl.1
    have hr0 : fieldsOf (handleJoinOnPN σ r) = fieldsOf r := ihr.1
    clear ihl ihr
    rw [handleJoinOnPN]
    constructor
    · exact (handleJoinOnFold_top σ _ _ d.joinOn
        (d, handleJoinOnPN σ l, handleJoinOnPN σ r)).2.1
    · intro d0 l0 r0 heq
      injection heq with e1 e2 e3
      subst e1
      subst e2
      subst e3
      refine ⟨_, _, _, rfl,
        (handleJoinOnFold_top σ _ _ d.joinOn _).1,
        (handleJoinOnFold_top σ _ _ d.joinOn _).2.1, ?_, ?_⟩
      · rw [← hl0]
        exact (handleJoinOnFold_top σ _ _ d.joinOn
          (d, handleJoinOnPN σ l, handleJoinOnPN σ r)).2.2.1
      · rw [← hr0]
        exact (handleJoinOnFold_top σ _ _ d.joinOn
          (d, handleJoinOnPN σ l, handleJoinOnPN σ r)).2.2.2

theorem pushSelectExprPN_len (σ : ColStore) (f : selectTuple) (t : PlanNode) :
    (fieldsOf t).length ≤ (fieldsOf (pushSelectExprPN σ f t).2.1).length := by
  have htop := pushSelectExprPN_top σ f t
  cases he : (pushSelectExprPN σ f t).2.2 with
  | none =>
    rw [(htop.1 he).1]
    simp
  | some e0 =>
    rw [htop.2 (by rw [he]; simp)]

theorem pushOtherFilterF_len (σ : ColStore) (expr : Expr) (node : PlanNode)
    (tbs : List String) (idx : Nat) :
    (fieldsOf node).length ≤
      (fieldsOf (pushOtherFilterF σ expr node tbs idx).1.2.1).length := by
  unfold pushOtherFilterF
  simp only []
  split
  · split
    · exact pushSelectExprPN_len σ _ node
    · exact pushSelectExprPN_len σ _ node
  · exact le_refl _

theorem pushOtherFiltersGo_top (σ : ColStore) :
    ∀ (es : List Expr) (d : JoinData) (l r : PlanNode) (idx : Nat),
      (pushOtherFiltersGo σ (d, l, r, idx) es).1.1.Cols = d.Cols ∧
      (pushOtherFiltersGo σ (d, l, r, idx) es).1.1.fields = d.fields ∧
      (fieldsOf l).length ≤
        (fieldsOf (pushOtherFiltersGo σ (d, l, r, idx) es).1.2.1).length ∧
      (fieldsOf r).length ≤
        (fieldsOf (pushOtherFiltersGo σ (d, l, r, idx) es).1.2.2.1).length := by
  intro es
  induction es with
  | nil =>
    intro d l r idx
    exact ⟨rfl, rfl, le_refl _, le_refl _⟩
  | cons expr rest ih =>
    intro d l r idx
    cases expr with
    | cmp op el er =>
      rw [pushOtherFiltersGo]
      try simp only []
      split
      · rcases hfa : pushOtherFilterF σ el l (getTbInExpr σ el) idx with ⟨⟨lidx, l1, idx1⟩, e1⟩
        have hla := pushOtherFilterF_len σ el l (getTbInExpr σ el) idx
        rw [hfa] at hla
        try simp only at hla
        try simp only [hfa]
        cases e1 with
        | some e0 => exact ⟨rfl, rfl, hla, le_refl _⟩
        | none =>
          rcases hfb : pushOtherFilterF σ er r (getTbInExpr σ er) idx1 with ⟨⟨ridx, r1, idx2⟩, e2⟩
          have hrb := pushOtherFilterF_len σ er r (getTbInExpr σ er) idx1
          rw [hfb] at hrb
          try simp only at hrb
          try simp only [hfb]
          cases e2 with
          | some e0 => exact ⟨rfl, rfl, hla, hrb⟩
          | none =>
            obtain ⟨g1, g2, g3, g4⟩ :=
              ih { d with CmpFilter := d.CmpFilter ++ [⟨lidx, ridx, op, false⟩] } l1 r1 idx2
            exact ⟨g1, g2, hla.trans g3, hrb.trans g4⟩
      · split
        · rcases hfa : pushOtherFilterF σ er l (getTbInExpr σ er) idx with ⟨⟨lidx, l1, idx1⟩, e1⟩
          have hla := pushOtherFilterF_len σ er l (getTbInExpr σ er) idx
          rw [hfa] at hla
          try simp only at hla
          try simp only [hfa]
          cases e1 with
          | some e0 => exact ⟨rfl, rfl, hla, le_refl _⟩
          | none =>
            rcases hfb : pushOtherFilterF σ el r (getTbInExpr σ el) idx1 with ⟨⟨ridx, r1, idx2⟩, e2⟩
            have hrb := pushOtherFilterF_len σ el r (getTbInExpr σ el) idx1
            rw [hfb] at hrb
            try simp only at hrb
            try simp only [hfb]
            cases e2 with
            | some e0 => exact ⟨rfl, rfl, hla, hrb⟩
            | none =>
              obtain ⟨g1, g2, g3, g4⟩ :=
                ih { d with CmpFilter := d.CmpFilter ++ [⟨lidx, ridx, op, true⟩] } l1 r1 idx2
              exact ⟨g1, g2, hla.trans g3, hrb.trans g4⟩
        · exact ⟨rfl, rfl, le_refl _, le_refl _⟩
    | col c => exact ⟨rfl, rfl, le_refl _, le_refl _⟩
    | ncol t f => exact ⟨rfl, rfl, le_refl _, le_refl _⟩
    | lit v => exact ⟨rfl, rfl, le_refl _, le_refl _⟩
    | isNull e => exact ⟨rfl, rfl, le_refl _, le_refl _⟩
    | conj a b => exact ⟨rfl, rfl, le_refl _, le_refl _⟩

theorem attachMergeLCA_fields (app : MergeData → MergeData)
    (happ : ∀ m, (app m).fields = m.fields) (tbs : List String) (err : PlanErr) :
    ∀ t, fieldsOf (attachMergeLCA app tbs err t).1 = fieldsOf t := by
  intro t
  induction t with
  | merge m => simp [attachMergeLCA, fieldsOf, happ]
  | join d l r ihl ihr =>
    rw [attachMergeLCA]
    repeat' first | split | simp only []
    all_goals rfl

theorem setNoTableFilterPN_fields (t : PlanNode) (es : List Expr) :
    fieldsOf (setNoTableFilterPN t es) = fieldsOf t := by
  cases t <;> rfl

theorem pushOtherJoinLeft_top (σ : ColStore) :
    ∀ (fs : List selectTuple) (d : JoinData) (l : PlanNode),
      (pushOtherJoinLeft σ d l fs).1.1.Cols = d.Cols ∧
      (pushOtherJoinLeft σ d l fs).1.1.fields = d.fields ∧
      (fieldsOf l).length ≤ (fieldsOf (pushOtherJoinLeft σ d l fs).1.2).length := by
  intro fs
  induction fs with
  | nil =>
    intro d l
    exact ⟨rfl, rfl, le_refl _⟩
  | cons f fs ih =>
    intro d l
    rw [pushOtherJoinLeft]
    rcases hres : pushSelectExprPN σ f l with ⟨i, l1, e⟩
    have hlen := pushSelectExprPN_len σ f l
    rw [hres] at hlen
    try simp only at hlen
    try simp only [hres]
    cases e with
    | none =>
      obtain ⟨g1, g2, g3⟩ := ih { d with LeftTmpCols := d.LeftTmpCols ++ [i] } l1
      exact ⟨g1, g2, hlen.trans g3⟩
    | some e0 =>
      exact ⟨rfl, rfl, hlen⟩

theorem pushOtherJoinRight_fields (σ : ColStore) :
    ∀ (fs : List filterTuple) (r : PlanNode),
      fieldsOf (pushOtherJoinRight σ r fs).1 = fieldsOf r := by
  intro fs
  induction fs with
  | nil => intro r; rfl
  | cons f fs ih =>
    intro r
    rw [pushOtherJoinRight]
    rcases hres : attachMergeLCA (fun m => m.setWhereFilter f.expr) f.referTables
        (.onClauseInCrossShardJoin (fmtExpr σ f.expr)) r with ⟨r1, e⟩
    have hf := attachMergeLCA_fields (fun m => m.setWhereFilter f.expr)
      (fun m => rfl) f.referTables (.onClauseInCrossShardJoin (fmtExpr σ f.expr)) r
    rw [hres] at hf
    try simp only at hf
    try simp only [hres]
    cases e with
    | none => rw [ih r1, hf]
    | some e0 => exact hf

theorem pushNullExprsGo_top (σ : ColStore) :
    ∀ (ts : List nullExpr) (d : JoinData) (r : PlanNode) (idx : Nat),
      (pushNullExprsGo σ (d, r, idx) ts).1.1.Cols = d.Cols ∧
      (pushNullExprsGo σ (d, r, idx) ts).1.1.fields = d.fields ∧
      (fieldsOf r).length ≤ (fieldsOf (pushNullExprsGo σ (d, r, idx) ts).1.2.1).length := by
  intro ts
  induction ts with
  | nil =>
    intro d r idx
    exact ⟨rfl, rfl, le_refl _⟩
  | cons t ts ih =>
    intro d r idx
    rw [pushNullExprsGo]
    rcases hres : pushOtherFilterF σ t.expr r t.referTables idx with ⟨⟨index, r1, idx1⟩, e⟩
    have hlen := pushOtherFilterF_len σ t.expr r t.referTables idx
    rw [hres] at hlen
    try simp only at hlen
    try simp only [hres]
    cases e with
    | none =>
      obtain ⟨g1, g2, g3⟩ := ih { d with RightTmpCols := d.RightTmpCols ++ [index] } r1 idx1
      exact ⟨g1, g2, hlen.trans g3⟩
    | some e0 =>
      exact ⟨rfl, rfl, hlen⟩

theorem pushOtherJoinJ_top (σ : ColStore) (d : JoinData) (l r : PlanNode) (idx : Nat) :
    (pushOtherJoinJ σ (d, l, r, idx)).1.1.Cols = d.Cols ∧
    (pushOtherJoinJ σ (d, l, r, idx)).1.1.fields = d.fields ∧
    (fieldsOf l).length ≤ (fieldsOf (pushOtherJoinJ σ (d, l, r, idx)).1.2.1).length ∧
    (fieldsOf r).length ≤ (fieldsOf (pushOtherJoinJ σ (d, l, r, idx)).1.2.2.1).length := by
  unfold pushOtherJoinJ
  try simp only []
  cases hoj : d.otherJoinOn with
  | none => exact ⟨rfl, rfl, le_refl _, le_refl _⟩
  | some oj =>
    try simp only [hoj]
    rcases hgo : pushOtherFiltersGo σ (d, l, r, idx) oj.others with ⟨⟨d1, l1, r1, idx1⟩, e⟩
    obtain ⟨a1, a2, a3, a4⟩ := pushOtherFiltersGo_top σ oj.others d l r idx
    rw [hgo] at a1 a2 a3 a4
    try simp only at a1 a2 a3 a4
    try simp only [hgo]
    cases e with
    | some e0 => exact ⟨a1, a2, a3, a4⟩
    | none =>
      have hr2 : fieldsOf (setNoTableFilterPN r1 oj.noTables) = fieldsOf r1 :=
        setNoTableFilterPN_fields r1 oj.noTables
      rcases hjl : pushOtherJoinLeft σ d1 l1 oj.left with ⟨⟨d2, l2⟩, e2⟩
      obtain ⟨b1, b2, b3⟩ := pushOtherJoinLeft_top σ oj.left d1 l1
      rw [hjl] at b1 b2 b3
      try simp only at b1 b2 b3
      try simp only [hjl]
      cases e2 with
      | some e0 =>
        refine ⟨b1.trans a1, b2.trans a2, a3.trans b3, ?_⟩
        rw [hr2]
        exact a4
      | none =>
        rcases hjr : pushOtherJoinRight σ (setNoTableFilterPN r1 oj.noTables) oj.right
          with ⟨r3, e3⟩
        have c1 := pushOtherJoinRight_fields σ oj.right (setNoTableFilterPN r1 oj.noTables)
        rw [hjr] at c1
        try simp only at c1
        try simp only [hjr]
        cases e3 with
        | some e0 =>
          refine ⟨b1.trans a1, b2.trans a2, a3.trans b3, ?_⟩
          rw [c1, hr2]
          exact a4
        | none =>
          refine ⟨b1.trans a1, b2.trans a2, a3.trans b3, ?_⟩
          rw [c1, hr2]
          exact a4

theorem handleOthersPN_top (σ : ColStore) :
    ∀ t, fieldsOf (handleOthersPN σ t).1 = fieldsOf t ∧
      (∀ d l r, t = .join d l r →
        ∃ d2 l2 r2, (handleOthersPN σ t).1 = .join d2 l2 r2 ∧
          d2.Cols = d.Cols ∧ d2.fields = d.fields ∧
          (fieldsOf l).length ≤ (fieldsOf l2).length ∧
          (fieldsOf r).length ≤ (fieldsOf r2).length) := by
  intro t
  induction t with
  | merge m => exact ⟨rfl, fun d l r h => by cases h⟩
  | join d l r ihl ihr =>
    have hlf : fieldsOf (handleOthersPN σ l).1 = fieldsOf l := ihl.1
    have hrf : fieldsOf (handleOthersPN σ r).1 = fieldsOf r := ihr.1
    clear ihl ihr
    rw [handleOthersPN]
    rcases hl1 : handleOthersPN σ l with ⟨l1, el⟩
    rw [hl1] at hlf
    try simp only at hlf
    try simp only [hl1]
    cases el with
    | some e0 =>
      refine ⟨rfl, ?_⟩
      intro d0 l0 r0 heq
      injection heq with e1 e2 e3
      subst e1
      subst e2
      subst e3
      exact ⟨d, l1, r, rfl, rfl, rfl, le_of_eq (by rw [hlf]), le_refl _⟩
    | none =>
      rcases hr1 : handleOthersPN σ r with ⟨r1, er⟩
      rw [hr1] at hrf
      try simp only at hrf
      try simp only [hr1]
      cases er with
      | some e0 =>
        refine ⟨rfl, ?_⟩
        intro d0 l0 r0 heq
        injection heq with e1 e2 e3
        subst e1
        subst e2
        subst e3
        exact ⟨d, l1, r1, rfl, rfl, rfl, le_of_eq (by rw [hlf]), le_of_eq (by rw [hrf])⟩
      | none =>
        rcases hpj : pushOtherJoinJ σ (d, l1, r1, 0) with ⟨⟨d1, l2, r2, idxa⟩, ej⟩
        obtain ⟨a1, a2, a3, a4⟩ := pushOtherJoinJ_top σ d l1 r1 0
        rw [hpj] at a1 a2 a3 a4
        try simp only at a1 a2 a3 a4
        try simp only [hpj]
        cases ej with
        | some e0 =>
          refine ⟨a2, ?_⟩
          intro d0 l0 r0 heq
          injection heq with e1 e2 e3
          subst e1
          subst e2
          subst e3
          exact ⟨d1, l2, r2, rfl, a1, a2, hlf ▸ a3, hrf ▸ a4⟩
        | none =>
          rcases hpn : pushNullExprsGo σ (d1, r2, idxa) d1.rightNull with ⟨⟨d2, r3, idx2⟩, en⟩
          obtain ⟨b1, b2, b3⟩ := pushNullExprsGo_top σ d1.rightNull d1 r2 idxa
          rw [hpn] at b1 b2 b3
          try simp only at b1 b2 b3
          try simp only [hpn]
          cases en with
          | some e0 =>
            refine ⟨b2.trans a2, ?_⟩
            intro d0 l0 r0 heq
            injection heq with e1 e2 e3
            subst e1
            subst e2
            subst e3
            exact ⟨d2, l2, r3, rfl, b1.trans a1, b2.trans a2, hlf ▸ a3, hrf ▸ a4.trans b3⟩
          | none =>
            rcases hpf : pushOtherFiltersGo σ (d2, l2, r3, idx2) d2.otherFilter
              with ⟨⟨d3, l3, r4, idx3⟩, ef⟩
            obtain ⟨c1, c2, c3, c4⟩ := pushOtherFiltersGo_top σ d2.otherFilter d2 l2 r3 idx2
            rw [hpf] at c1 c2 c3 c4
            try simp only at c1 c2 c3 c4
            try simp only [hpf]
            refine ⟨(c2.trans b2).trans a2, ?_⟩
            intro d0 l0 r0 heq
            injection heq with e1 e2 e3
            subst e1
            subst e2
            subst e3
            exact ⟨d3, l3, r4, rfl, (c1.trans b1).trans a1, (c2.trans b2).trans a2,
              hlf ▸ a3.trans c3, hrf ▸ (a4.trans b3).trans c4⟩

/-- C3: after a successful `pushSelectExprs` starting from a join whose
`Cols` and `fields` are empty, each projected tuple has contributed
exactly one entry to `Cols` (the resulting `fields` list is exactly the
projected tuples and `|Cols| = |fields|`), and every entry of `Cols` is
nonzero: it equals `-(i+1)` for a valid field index `i` of the left
child, or `+(i+1)` for a valid field index `i` of the right child
(join_node.go lines 480-499 and 615-636). -/
theorem C3_pushSelectExprs_cols (σ : ColStore) (d : JoinData) (l r : PlanNode)
    (fields groups : List selectTuple) (hasAggregates : Bool)
    (hC : d.Cols = []) (hF : d.fields = [])
    (h : (pushSelectExprsJ σ d l r fields groups hasAggregates).2 = none) :
    ∃ d2 l2 r2,
      (pushSelectExprsJ σ d l r fields groups hasAggregates).1 = .join d2 l2 r2 ∧
      d2.fields = fields ∧ d2.Cols.length = fields.length ∧
      ∀ cc ∈ d2.Cols, cc ≠ 0 ∧
        ((∃ i : Nat, cc = -(i + 1 : Int) ∧ i < (fieldsOf l2).length) ∨
         (∃ i : Nat, cc = (i + 1 : Int) ∧ i < (fieldsOf r2).length)) := by
  rw [pushSelectExprsJ] at h ⊢
  cases hasAggregates with
  | true =>
    simp at h
  | false =>
    simp only [Bool.false_eq_true, if_false] at h ⊢
    rcases hloop : pushSelectExprsLoop σ
        (.join (if 0 < groups.length then
          { d with children := d.children ++ [ChildPlan.aggregate] } else d) l r) fields
      with ⟨t1, e1⟩
    have hd1C : (if 0 < groups.length then
        { d with children := d.children ++ [ChildPlan.aggregate] } else d).Cols = [] := by
      split <;> simpa using hC
    have hd1F : (if 0 < groups.length then
        { d with children := d.children ++ [ChildPlan.aggregate] } else d).fields = [] := by
      split <;> simpa using hF
    cases e1 with
    | some e0 =>
      simp only [hloop] at h
      simp at h
    | none =>
      simp only [hloop] at h ⊢
      have hok : colsOK (.join (if 0 < groups.length then
          { d with children := d.children ++ [ChildPlan.aggregate] } else d) l r) := by
        refine ⟨by simp [hd1C, hd1F], ?_⟩
        intro cc hcc
        rw [hd1C] at hcc
        cases hcc
      obtain ⟨d2, l2, r2, ht1, hf2, hok2⟩ :=
        pushSelectExprsLoop_join σ fields _ l r hok (by rw [hloop])
      rw [hloop] at ht1
      try simp only at ht1
      subst ht1
      obtain ⟨d3, l3, r3, hjeq, hjC, hjF, hjl, hjr⟩ :=
        (handleJoinOnPN_top σ (.join d2 l2 r2)).2 d2 l2 r2 rfl
      have hok3 : colsOK (.join d3 l3 r3) :=
        colsOK_mono d2 d3 l2 r2 l3 r3 hok2 hjC hjF hjl hjr
      rw [hjeq] at h ⊢
      obtain ⟨d4, l4, r4, hoeq, hoC, hoF, hol, hor⟩ :=
        (handleOthersPN_top σ (.join d3 l3 r3)).2 d3 l3 r3 rfl
      refine ⟨d4, l4, r4, hoeq, ?_, ?_, ?_⟩
      · rw [hoF, hjF, hf2, hd1F]
        simp
      · rw [hoC, hjC, hok2.1, hf2, hd1F]
        simp
      · intro cc hcc
        rw [hoC, hjC] at hcc
        rcases hok2.2 cc hcc with ⟨i, hi, hlt⟩ | ⟨i, hi, hlt⟩
        · refine ⟨by rw [hi]; omega, Or.inl ⟨i, hi, ?_⟩⟩
          have := hjl.trans hol
          omega
        · refine ⟨by rw [hi]; omega, Or.inr ⟨i, hi, ?_⟩⟩
          have := hjr.trans hor
          omega

def dC3 : JoinData := JoinData0 reft12

def fsC3 : List selectTuple := [⟨.ncol "t1" "a", "a", ["t1"]⟩, ⟨.ncol "t2" "b", "b", ["t2"]⟩]

/-- Witness for C3: projecting `t1.a` and `t2.b` over the join of two
fresh Merges succeeds and yields `Cols` entries as signed indices. -/
theorem C3_pushSelectExprs_cols_witness :
    dC3.Cols = [] ∧ dC3.fields = [] ∧
    (pushSelectExprsJ [] dC3 (.merge lm0) (.merge rm0) fsC3 [] false).2 = none ∧
    ∃ d2 l2 r2,
      (pushSelectExprsJ [] dC3 (.merge lm0) (.merge rm0) fsC3 [] false).1 = .join d2 l2 r2 ∧
      d2.fields = fsC3 ∧ d2.Cols.length = fsC3.length ∧
      ∀ cc ∈ d2.Cols, cc ≠ 0 ∧
        ((∃ i : Nat, cc = -(i + 1 : Int) ∧ i < (fieldsOf l2).length) ∨
         (∃ i : Nat, cc = (i + 1 : Int) ∧ i < (fieldsOf r2).length)) :=
  ⟨rfl, rfl, by decide,
    C3_pushSelectExprs_cols [] dC3 (.merge lm0) (.merge rm0) fsC3 [] false rfl rfl (by decide)⟩

theorem pushSelectExprPN_err (σ : ColStore) (f : selectTuple) :
    ∀ (t : PlanNode) (e : PlanErr), (pushSelectExprPN σ f t).2.2 = some e →
      ∃ q, e = .exprInCrossShardJoin q := by
  intro t
  induction t with
  | merge m =>
    intro e h
    simp [pushSelectExprPN] at h
  | join d l r ihl ihr =>
    intro e h
    rw [pushSelectExprPN] at h
    split at h
    · split at h
      · simp at h
      · rename_i heq
        simp only at h
        injection h with h
        subst h
        exact ihl _ (by rw [heq])
    · split at h
      · split at h
        · simp at h
        · rename_i heq
          simp only at h
          injection h with h
          subst h
          exact ihr _ (by rw [heq])
      · simp only at h
        injection h with h
        exact ⟨_, h.symm⟩

theorem pushSelectExprsLoop_err (σ : ColStore) :
    ∀ (fs : List selectTuple) (t : PlanNode) (e : PlanErr),
      (pushSelectExprsLoop σ t fs).2 = some e → ∃ q, e = .exprInCrossShardJoin q := by
  intro fs
  induction fs with
  | nil =>
    intro t e h
    simp [pushSelectExprsLoop] at h
  | cons f fs ih =>
    intro t e h
    rw [pushSelectExprsLoop] at h
    rcases hres : pushSelectExprPN σ f t with ⟨i, t1, e1⟩
    simp only [hres] at h
    cases e1 with
    | none => exact ih t1 e h
    | some e0 =>
      simp only at h
      injection h with h
      subst h
      exact pushSelectExprPN_err σ f t e0 (by rw [hres])

theorem pushOtherFilterF_err (σ : ColStore) (expr : Expr) (node : PlanNode)
    (tbs : List String) (idx : Nat) (e : PlanErr)
    (h : (pushOtherFilterF σ expr node tbs idx).2 = some e) :
    ∃ q, e = .exprInCrossShardJoin q := by
  unfold pushOtherFilterF at h
  try simp only [] at h
  split at h
  · split at h
    · rename_i heq
      simp only at h
      injection h with h
      subst h
      exact pushSelectExprPN_err σ _ node _ heq
    · simp at h
  · simp at h

theorem pushOtherFiltersGo_err (σ : ColStore) :
    ∀ (es : List Expr) (st : JoinData × PlanNode × PlanNode × Nat) (e : PlanErr),
      (pushOtherFiltersGo σ st es).2 = some e →
      (∃ q, e = .clauseInCrossShardJoin q) ∨ (∃ q, e = .exprInCrossShardJoin q) := by
  intro es
  induction es with
  | nil =>
    intro st e h
    simp [pushOtherFiltersGo] at h
  | cons expr rest ih =>
    intro st e h
    obtain ⟨d, l, r, idx⟩ := st
    cases expr with
    | cmp op el er =>
      rw [pushOtherFiltersGo] at h
      try simp only [] at h
      split at h
      · rcases hfa : pushOtherFilterF σ el l (getTbInExpr σ el) idx with ⟨⟨lidx, l1, idx1⟩, e1⟩
        simp only [hfa] at h
        cases e1 with
        | some e0 =>
          simp only at h
          injection h with h
          subst h
          exact Or.inr (pushOtherFilterF_err σ el l _ idx e0 (by rw [hfa]))
        | none =>
          rcases hfb : pushOtherFilterF σ er r (getTbInExpr σ er) idx1
            with ⟨⟨ridx, r1, idx2⟩, e2⟩
          simp only [hfb] at h
          cases e2 with
          | some e0 =>
            simp only at h
            injection h with h
            subst h
            exact Or.inr (pushOtherFilterF_err σ er r _ idx1 e0 (by rw [hfb]))
          | none => exact ih _ e h
      · split at h
        · rcases hfa : pushOtherFilterF σ er l (getTbInExpr σ er) idx
            with ⟨⟨lidx, l1, idx1⟩, e1⟩
          simp only [hfa] at h
          cases e1 with
          | some e0 =>
            simp only at h
            injection h with h
            subst h
            exact Or.inr (pushOtherFilterF_err σ er l _ idx e0 (by rw [hfa]))
          | none =>
            rcases hfb : pushOtherFilterF σ el r (getTbInExpr σ el) idx1
              with ⟨⟨ridx, r1, idx2⟩, e2⟩
            simp only [hfb] at h
            cases e2 with
            | some e0 =>
              simp only at h
              injection h with h
              subst h
              exact Or.inr (pushOtherFilterF_err σ el r _ idx1 e0 (by rw [hfb]))
            | none => exact ih _ e h
        · simp only at h
          injection h with h
          exact Or.inl ⟨_, h.symm⟩
    | col c =>
      rw [pushOtherFiltersGo] at h
      · injection h with h
        exact Or.inl ⟨_, h.symm⟩
      · intro op el er hbad
        cases hbad
    | ncol t f =>
      rw [pushOtherFiltersGo] at h
      · injection h with h
        exact Or.inl ⟨_, h.symm⟩
      · intro op el er hbad
        cases hbad
    | lit v =>
      rw [pushOtherFiltersGo] at h
      · injection h with h
        exact Or.inl ⟨_, h.symm⟩
      · intro op el er hbad
        cases hbad
    | isNull e0 =>
      rw [pushOtherFiltersGo] at h
      · injection h with h
        exact Or.inl ⟨_, h.symm⟩
      · intro op el er hbad
        cases hbad
    | conj a b =>
      rw [pushOtherFiltersGo] at h
      · injection h with h
        exact Or.inl ⟨_, h.symm⟩
      · intro op el er hbad
        cases hbad

theorem attachMergeLCA_err (app : MergeData → MergeData) (tbs : List String)
    (err : PlanErr) :
    ∀ (t : PlanNode) (e : PlanErr), (attachMergeLCA app tbs err t).2 = some e → e = err := by
  intro t
  induction t with
  | merge m =>
    intro e h
    simp [attachMergeLCA] at h
  | join d l r ihl ihr =>
    intro e h
    rw [attachMergeLCA] at h
    split at h
    · exact ihl e h
    · split at h
      · exact ihr e h
      · simp only at h
        injection h with h
        exact h.symm

theorem pushOtherJoinLeft_err (σ : ColStore) :
    ∀ (fs : List selectTuple) (d : JoinData) (l : PlanNode) (e : PlanErr),
      (pushOtherJoinLeft σ d l fs).2 = some e → ∃ q, e = .exprInCrossShardJoin q := by
  intro fs
  induction fs with
  | nil =>
    intro d l e h
    simp [pushOtherJoinLeft] at h
  | cons f fs ih =>
    intro d l e h
    rw [pushOtherJoinLeft] at h
    rcases hres : pushSelectExprPN σ f l with ⟨i, l1, e1⟩
    simp only [hres] at h
    cases e1 with
    | none => exact ih _ l1 e h
    | some e0 =>
      simp only at h
      injection h with h
      subst h
      exact pushSelectExprPN_err σ f l e0 (by rw [hres])

theorem pushOtherJoinRight_err (σ : ColStore) :
    ∀ (fs : List filterTuple) (r : PlanNode) (e : PlanErr),
      (pushOtherJoinRight σ r fs).2 = some e →
      ∃ q, e = .onClauseInCrossShardJoin q := by
  intro fs
  induction fs with
  | nil =>
    intro r e h
    simp [pushOtherJoinRight] at h
  | cons f fs ih =>
    intro r e h
    rw [pushOtherJoinRight] at h
    rcases hres : attachMergeLCA (fun m => m.setWhereFilter f.expr) f.referTables
        (.onClauseInCrossShardJoin (fmtExpr σ f.expr)) r with ⟨r1, e1⟩
    simp only [hres] at h
    cases e1 with
    | none => exact ih r1 e h
    | some e0 =>
      simp only at h
      injection h with h
      subst h
      have := attachMergeLCA_err (fun m => m.setWhereFilter f.expr) f.referTables
        (.onClauseInCrossShardJoin (fmtExpr σ f.expr)) r e0 (by rw [hres])
      exact ⟨_, this⟩

theorem pushNullExprsGo_err (σ : ColStore) :
    ∀ (ts : List nullExpr) (st : JoinData × PlanNode × Nat) (e : PlanErr),
      (pushNullExprsGo σ st ts).2 = some e → ∃ q, e = .exprInCrossShardJoin q := by
  intro ts
  induction ts with
  | nil =>
    intro st e h
    simp [pushNullExprsGo] at h
  | cons t ts ih =>
    intro st e h
    obtain ⟨d, r, idx⟩ := st
    rw [pushNullExprsGo] at h
    rcases hres : pushOtherFilterF σ t.expr r t.referTables idx with ⟨⟨index, r1, idx1⟩, e1⟩
    simp only [hres] at h
    cases e1 with
    | none => exact ih _ e h
    | some e0 =>
      simp only at h
      injection h with h
      subst h
      exact pushOtherFilterF_err σ t.expr r _ idx e0 (by rw [hres])

theorem pushOtherJoinJ_err (σ : ColStore) (st : JoinData × PlanNode × PlanNode × Nat)
    (e : PlanErr) (h : (pushOtherJoinJ σ st).2 = some e) :
    specErrorEnum e = true := by
  unfold pushOtherJoinJ at h
  try simp only [] at h
  cases hoj : st.1.otherJoinOn with
  | none =>
    simp only [hoj] at h
    simp at h
  | some oj =>
    simp only [hoj] at h
    rcases hgo : pushOtherFiltersGo σ st oj.others with ⟨⟨d1, l1, r1, idx1⟩, e1⟩
    simp only [hgo] at h
    cases e1 with
    | some e0 =>
      simp only at h
      injection h with h
      subst h
      rcases pushOtherFiltersGo_err σ oj.others st e0 (by rw [hgo]) with ⟨q, hq⟩ | ⟨q, hq⟩ <;>
        subst hq <;> rfl
    | none =>
      rcases hjl : pushOtherJoinLeft σ d1 l1 oj.left with ⟨⟨d2, l2⟩, e2⟩
      simp only [hjl] at h
      cases e2 with
      | some e0 =>
        simp only at h
        injection h with h
        subst h
        rcases pushOtherJoinLeft_err σ oj.left d1 l1 e0 (by rw [hjl]) with ⟨q, hq⟩
        subst hq
        rfl
      | none =>
        rcases hjr : pushOtherJoinRight σ (setNoTableFilterPN r1 oj.noTables) oj.right
          with ⟨r3, e3⟩
        simp only [hjr] at h
        cases e3 with
        | some e0 =>
          simp only at h
          injection h with h
          subst h
          rcases pushOtherJoinRight_err σ oj.right _ e0 (by rw [hjr]) with ⟨q, hq⟩
          subst hq
          rfl
        | none => simp at h

theorem handleOthersPN_err (σ : ColStore) :
    ∀ (t : PlanNode) (e : PlanErr), (handleOthersPN σ t).2 = some e →
      specErrorEnum e = true := by
  intro t
  induction t with
  | merge m =>
    intro e h
    simp [handleOthersPN] at h
  | join d l r ihl ihr =>
    intro e h
    rw [handleOthersPN] at h
    rcases hl1 : handleOthersPN σ l with ⟨l1, el⟩
    simp only [hl1] at h
    cases el with
    | some e0 =>
      simp only at h
      injection h with h
      subst h
      exact ihl e0 (by rw [hl1])
    | none =>
      rcases hr1 : handleOthersPN σ r with ⟨r1, er⟩
      simp only [hr1] at h
      cases er with
      | some e0 =>
        simp only at h
        injection h with h
        subst h
        exact ihr e0 (by rw [hr1])
      | none =>
        rcases hpj : pushOtherJoinJ σ (d, l1, r1, 0) with ⟨⟨d1, l2, r2, idxa⟩, ej⟩
        simp only [hpj] at h
        cases ej with
        | some e0 =>
          simp only at h
          injection h with h
          subst h
          exact pushOtherJoinJ_err σ _ e0 (by rw [hpj])
        | none =>
          rcases hpn : pushNullExprsGo σ (d1, r2, idxa) d1.rightNull
            with ⟨⟨d2, r3, idx2⟩, en⟩
          simp only [hpn] at h
          cases en with
          | some e0 =>
            simp only at h
            injection h with h
            subst h
            rcases pushNullExprsGo_err σ d1.rightNull _ e0 (by rw [hpn]) with ⟨q, hq⟩
            subst hq
            rfl
          | none =>
            rcases hpf : pushOtherFiltersGo σ (d2, l2, r3, idx2) d2.otherFilter
              with ⟨⟨d3, l3, r4, idx3⟩, ef⟩
            simp only [hpf] at h
            cases ef with
            | none => simp at h
            | some e0 =>
              try simp only at h
              injection h with h
              subst h
              rcases pushOtherFiltersGo_err σ d2.otherFilter _ e0 (by rw [hpf])
                with ⟨q, hq⟩ | ⟨q, hq⟩ <;> subst hq <;> rfl

theorem pushSelectExprsJ_err (σ : ColStore) (d : JoinData) (l r : PlanNode)
    (fields groups : List selectTuple) (hag : Bool) (e : PlanErr)
    (h : (pushSelectExprsJ σ d l r fields groups hag).2 = some e) :
    specErrorEnum e = true := by
  rw [pushSelectExprsJ] at h
  cases hag with
  | true =>
    rw [if_pos rfl] at h
    simp only at h
    injection h with h
    subst h
    rfl
  | false =>
    simp only [Bool.false_eq_true, if_false] at h
    rcases hloop : pushSelectExprsLoop σ (.join (if 0 < groups.length then
        { d with children := d.children ++ [ChildPlan.aggregate] } else d) l r) fields
      with ⟨t1, e1⟩
    simp only [hloop] at h
    cases e1 with
    | some e0 =>
      simp only at h
      injection h with h
      subst h
      rcases pushSelectExprsLoop_err σ fields _ e0 (by rw [hloop]) with ⟨q, hq⟩
      subst hq
      rfl
    | none => exact handleOthersPN_err σ _ e h

theorem pushHaving1_err (σ : ColStore) :
    ∀ (t : PlanNode) (f : filterTuple) (e : PlanErr),
      (pushHaving1 σ t f).2 = some e → ∃ q, e = .havingsInCrossShardJoin q := by
  intro t
  induction t with
  | merge m =>
    intro f e h
    simp [pushHaving1] at h
  | join d l r ihl ihr =>
    intro f e h
    rw [pushHaving1] at h
    split at h
    · simp at h
    · split at h
      · simp at h
      · exact ⟨_, attachMergeLCA_err (fun m => m.addHaving f.expr) f.referTables
          (.havingsInCrossShardJoin (fmtExpr σ f.expr)) (.join d l r) e h⟩

theorem pushHavingGo_err (σ : ColStore) :
    ∀ (fs : List filterTuple) (t : PlanNode) (e : PlanErr),
      (pushHavingGo σ t fs).2 = some e → ∃ q, e = .havingsInCrossShardJoin q := by
  intro fs
  induction fs with
  | nil =>
    intro t e h
    simp [pushHavingGo] at h
  | cons f fs ih =>
    intro t e h
    rw [pushHavingGo] at h
    rcases hres : pushHaving1 σ t f with ⟨t1, e1⟩
    simp only [hres] at h
    cases e1 with
    | none => exact ih t1 e h
    | some e0 =>
      simp only at h
      injection h with h
      subst h
      exact pushHaving1_err σ t f e0 (by rw [hres])

theorem analyze_err (tuples : List selectTuple) (tbInfos : List (String × TableInfo)) :
    ∀ (os : List Order) (acc : List OrderByT) (e : PlanErr),
      (analyze tuples tbInfos os acc).2 = some e →
      specErrorEnum e = true ∨
        ∃ q, e = .orderbyUnsupported q ∧
          PlanErr.render e = "unsupported: " ++ ("orderby:" ++ q) := by
  intro os
  induction os with
  | nil =>
    intro acc e h
    simp [analyze] at h
  | cons o os ih =>
    intro acc e h
    rw [analyze] at h
    rcases hs : analyzeStep tuples tbInfos o with ob | e0
    · simp only [hs] at h
      exact ih _ e h
    · simp only [hs] at h
      try simp only at h
      injection h with h
      subst h
      unfold analyzeStep at hs
      rcases ho : o.Expr with ⟨name, qual⟩ | q
      · rw [ho] at hs
        try simp only [] at hs
        split at hs
        · injection hs with hs
          rw [← hs]
          exact Or.inl rfl
        · split at hs
          · injection hs with hs
            rw [← hs]
            exact Or.inl rfl
          · cases hs
      · rw [ho] at hs
        injection hs with hs
        exact Or.inr ⟨q, hs.symm, by rw [← hs]; rfl⟩

theorem pushFilterCore_err (router : Router) (σ : ColStore) (d : JoinData)
    (l r : PlanNode) (f : filterTuple) (e : PlanErr)
    (h : (pushFilterCore router σ d l r f).2 = some e) :
    ∃ m, e = .routerErr m := by
  unfold pushFilterCore at h
  try simp only [] at h
  repeat' split at h
  all_goals simp at h
  all_goals first
    | exact ⟨_, h.symm⟩
    | exact ⟨_, h⟩

theorem pushFilterStep_err (router : Router) (σ : ColStore)
    (rightTbs : List (String × TableInfo)) (st : JoinData × PlanNode × PlanNode)
    (f : filterTuple) (e : PlanErr)
    (h : (pushFilterStep router σ rightTbs st f).2 = some e) :
    ∃ m, e = .routerErr m := by
  unfold pushFilterStep at h
  try simp only [] at h
  split at h
  · simp at h
  · split at h
    · simp at h
    · rcases hcore : pushFilterCore router σ st.1 st.2.1 st.2.2 f with ⟨st1, e1⟩
      simp only [hcore] at h
      cases e1 with
      | some e0 =>
        simp only at h
        injection h with h
        subst h
        exact pushFilterCore_err router σ _ _ _ f e0 (by rw [hcore])
      | none => simp at h

theorem pushFilterGo_err (router : Router) (σ : ColStore)
    (rightTbs : List (String × TableInfo)) :
    ∀ (fs : List filterTuple) (st : JoinData × PlanNode × PlanNode) (e : PlanErr),
      (pushFilterGo router σ rightTbs st fs).2 = some e → ∃ m, e = .routerErr m := by
  intro fs
  induction fs with
  | nil =>
    intro st e h
    simp [pushFilterGo] at h
  | cons f fs ih =>
    intro st e h
    rw [pushFilterGo] at h
    rcases hres : pushFilterStep router σ rightTbs st f with ⟨st1, e1⟩
    simp only [hres] at h
    cases e1 with
    | none => exact ih st1 e h
    | some e0 =>
      simp only at h
      injection h with h
      subst h
      exact pushFilterStep_err router σ rightTbs st f e0 (by rw [hres])

def fC6 : filterTuple := ⟨.cmp ">" (.ncol "t1" "a") (.ncol "t2" "a"), ["t1", "t2"], none, none⟩

/-- Counterexample to C6: pushing `HAVING t1.a > t2.a` across the join
fails with `havings.<sql>.in.cross-shard.join` (join_node.go line 725), a
reason outside the six-item enumeration of the claim. -/
theorem C6_counterexample :
    (pushHavingGo [] (.join (JoinData0 reft12) (.merge lm0) (.merge rm0)) [fC6]).2 =
      some (.havingsInCrossShardJoin ("t1.a > t2.a")) ∧
    specErrorEnum (.havingsInCrossShardJoin ("t1.a > t2.a")) = false ∧
    (PlanErr.havingsInCrossShardJoin ("t1.a > t2.a")).render =
      "unsupported: " ++ ("havings." ++ sq ++ "t1.a > t2.a" ++ sq ++ ".in.cross-shard.join") :=
  ⟨by decide, rfl, rfl⟩

/-- C6 (amended): every planner-own error carries the stable prefix
`unsupported:`; `pushSelectExprs` (including `handleJoinOn` and
`handleOthers`) fails only with the claimed reasons
aggregates/clause/on.clause/expr; `calcRoute` never returns an error; and
`OrderByPlan.Build` fails with the two claimed orderby reasons or the
additional `orderby:<expr>` reason.  Outside the claimed enumeration:
`pushHaving` fails with `havings.<sql>.in.cross-shard.join`, and
`pushFilter` passes Route-Oracle errors through verbatim, without the
prefix. -/
theorem C6_error_enumeration :
    (∀ σ (d : JoinData) (l r : PlanNode) (fields groups : List selectTuple)
        (hag : Bool) (e : PlanErr),
        (pushSelectExprsJ σ d l r fields groups hag).2 = some e →
        specErrorEnum e = true) ∧
    (∀ σ (t : PlanNode) (fs : List filterTuple) (e : PlanErr),
        (pushHavingGo σ t fs).2 = some e →
        specErrorEnum e = false ∧ ∃ q, e = .havingsInCrossShardJoin q ∧
          PlanErr.render e =
            "unsupported: " ++ ("havings." ++ sq ++ q ++ sq ++ ".in.cross-shard.join")) ∧
    (∀ (tuples : List selectTuple) (tbInfos : List (String × TableInfo))
        (orders : List Order) (e : PlanErr),
        (orderByPlanBuild tuples tbInfos orders).2 = some e →
        specErrorEnum e = true ∨
          ∃ q, e = .orderbyUnsupported q ∧
            PlanErr.render e = "unsupported: " ++ ("orderby:" ++ q)) ∧
    (∀ (router : Router) σ (d : JoinData) (l r : PlanNode)
        (fs : List filterTuple) (e : PlanErr),
        (pushFilter router σ d l r fs).2 = some e →
        specErrorEnum e = false ∧ ∃ m, e = .routerErr m ∧ PlanErr.render e = m) ∧
    (∀ (router : Router) σ (t : PlanNode), (calcRoute router σ t).2 = none) ∧
    (∀ e : PlanErr, (∀ m, e ≠ .routerErr m) →
        ∃ rest, PlanErr.render e = "unsupported: " ++ rest) := by
  refine ⟨?_, ?_, ?_, ?_, ?_, ?_⟩
  · intro σ d l r fields groups hag e h
    exact pushSelectExprsJ_err σ d l r fields groups hag e h
  · intro σ t fs e h
    rcases pushHavingGo_err σ fs t e h with ⟨q, hq⟩
    subst hq
    exact ⟨rfl, q, rfl, rfl⟩
  · intro tuples tbInfos orders e h
    exact analyze_err tuples tbInfos orders [] e h
  · intro router σ d l r fs e h
    rcases pushFilterGo_err router σ (referredTablesOf r) fs (d, l, r) e h with ⟨m, hm⟩
    subst hm
    exact ⟨rfl, m, rfl, rfl⟩
  · intro router σ t
    exact calcRoute_no_err router σ (psize t) t (le_refl _)
  · intro e hne
    cases e with
    | aggregates => exact ⟨_, rfl⟩
    | clauseInCrossShardJoin s => exact ⟨_, rfl⟩
    | onClauseInCrossShardJoin s => exact ⟨_, rfl⟩
    | exprInCrossShardJoin s => exact ⟨_, rfl⟩
    | orderbyShouldInSelect f => exact ⟨_, rfl⟩
    | unknowTable t f => exact ⟨_, rfl⟩
    | havingsInCrossShardJoin s => exact ⟨_, rfl⟩
    | orderbyUnsupported s => exact ⟨_, rfl⟩
    | routerErr m => exact absurd rfl (hne m)

/-- Witness for C6 at the aggregate rejection: `pushSelectExprs` on a
grouped cross-shard query fails with the enumerated aggregates reason. -/
theorem C6_error_enumeration_witness :
    (pushSelectExprsJ [] dC3 (.merge lm0) (.merge rm0) fsC3 [] true).2 =
      some PlanErr.aggregates ∧
    specErrorEnum PlanErr.aggregates = true :=
  ⟨by decide, C6_error_enumeration.1 [] dC3 (.merge lm0) (.merge rm0) fsC3 [] true
    PlanErr.aggregates (by decide)⟩

/-- Witness for C9 at the spec's own example: `SELECT a FROM t ORDER BY b`
fails with exactly `unsupported: orderby[b].should.in.select.list`. -/
theorem C9_orderby_analyze_witness :
    (orderByPlanBuild [⟨.ncol "t" "a", "a", ["t"]⟩] [("t", ⟨"db", "t", ""⟩)]
        ([] ++ (⟨.col "b" "", "asc"⟩ : Order) :: [])).2 =
      some (.orderbyShouldInSelect "b") ∧
    (PlanErr.orderbyShouldInSelect "b").render =
      "unsupported: orderby[" ++ "b" ++ "].should.in.select.list" :=
  (C9_orderby_analyze _ _).2.1 [] [] "b" "" "asc" rfl rfl rfl

end Radon
